import Mathlib

set_option maxHeartbeats 1000000

/-! Verification development for the libfabric message-transport core:
the EFA RDM message path (rxr_msg.c), the util completion queue
(util_cq.c) and the GNI buddy allocator (gnix_buddy_allocator.c).
Machine integers are modelled as Nat (tags are 64-bit, masked where
bit operations matter); fallible operations return explicit result
types; list-based intrusive structures (dlist, slist, cirque) are
modelled as Lean lists. -/

/-! Error codes follow fi_errno values; functions return their negation. -/

def FI_EAGAIN : Int := 11
def FI_ENOMEM : Int := 12
def FI_EINVAL : Int := 22
def FI_ENOMSG : Int := 42
def FI_EOPNOTSUPP : Int := 95
def FI_ENOBUFS : Int := 105
def FI_EAVAIL : Int := 260

/-! Section: tag matching (rxr_msg.c receive utilities). -/

/-- An rx entry as far as unexpected-list tag matching is concerned:
its stored tag plus an identity (msg_id) so that distinct entries with
equal tags stay distinguishable. -/
structure RxEntry where
  msg_id : Nat
  tag : Nat
deriving DecidableEq

def mask64 : Nat := 2 ^ 64 - 1

/-- Modelled from the spec: ofi_match_tag lives in a header outside src;
the spec states the predicate (incoming_tag AND NOT ignore) equals
(posted_tag AND NOT ignore). Argument order follows the source call
sites: stored entry tag, ignore mask, searched tag. -/
def ofi_match_tag (tag ignore match_tag : Nat) : Bool :=
  decide ((tag &&& (mask64 ^^^ (ignore &&& mask64))) =
          (match_tag &&& (mask64 ^^^ (ignore &&& mask64))))

/-- Mirror of struct rxr_match_info. -/
structure RxrMatchInfo where
  tag : Nat
  ignore : Nat

/-- Match function for rx_entry in the endpoint unexpected tagged list. -/
def rxr_msg_match_ep_unexp_by_tag (info : RxrMatchInfo) (e : RxEntry) : Bool :=
  ofi_match_tag e.tag info.ignore info.tag

/-- Match function for rx_entry in the peer unexpected tagged list. -/
def rxr_msg_match_peer_unexp_by_tag (info : RxrMatchInfo) (e : RxEntry) : Bool :=
  ofi_match_tag e.tag info.ignore info.tag

/-- Search of the unexpected lists in rxr_msg_find_unexp_rx_entry.
peerList is present exactly when FI_DIRECTED_RECV scopes the search to
one peer; dlist_find_first_match (header code) is the first match in
list order, List.find?; the untagged branch takes the list head. The
claim removal step (unlinking the found entry from both intrusive
lists) does not affect which entry is selected and is elided here. -/
def rxr_msg_find_unexp_rx_entry (tagged : Bool) (peerList : Option (List RxEntry))
    (epList : List RxEntry) (tag ignore : Nat) : Option RxEntry :=
  if tagged then
    match peerList with
    | some pl => pl.find? (rxr_msg_match_peer_unexp_by_tag ⟨tag, ignore⟩)
    | none => epList.find? (rxr_msg_match_ep_unexp_by_tag ⟨tag, ignore⟩)
  else
    match peerList with
    | some pl => pl.head?
    | none => epList.head?

/-- The list that rxr_msg_find_unexp_rx_entry actually searches. -/
def searchedList (peerList : Option (List RxEntry)) (epList : List RxEntry) : List RxEntry :=
  peerList.getD epList

/-! Section: protocol selection (rxr_msg_select_rtm) and posting
(rxr_msg_post_rtm). Packet type identifiers are modelled from the
spec (the headers defining them are outside src): each tagged variant
is the untagged identifier plus one, baseline REQ types start at 64
and extra-feature REQ types start at 128. -/

def RXR_REQ_PKT_BEGIN : Nat := 64
def RXR_EAGER_MSGRTM_PKT : Nat := 64
def RXR_EAGER_TAGRTM_PKT : Nat := 65
def RXR_MEDIUM_MSGRTM_PKT : Nat := 66
def RXR_MEDIUM_TAGRTM_PKT : Nat := 67
def RXR_LONGCTS_MSGRTM_PKT : Nat := 68
def RXR_LONGCTS_TAGRTM_PKT : Nat := 69
def RXR_EXTRA_REQ_PKT_BEGIN : Nat := 128
def RXR_LONGREAD_MSGRTM_PKT : Nat := 128
def RXR_LONGREAD_TAGRTM_PKT : Nat := 129
def RXR_DC_EAGER_MSGRTM_PKT : Nat := 130
def RXR_DC_EAGER_TAGRTM_PKT : Nat := 131
def RXR_DC_MEDIUM_MSGRTM_PKT : Nat := 132
def RXR_DC_MEDIUM_TAGRTM_PKT : Nat := 133
def RXR_DC_LONGCTS_MSGRTM_PKT : Nat := 134
def RXR_DC_LONGCTS_TAGRTM_PKT : Nat := 135

def FI_HMEM_SYSTEM : Nat := 0

def boolToNat (b : Bool) : Nat := if b then 1 else 0

/-- Modelled from the spec: rxr_pkt_type_readbase_rtm (outside src)
yields the read-based RTM family member, tagged identifier being the
untagged one plus one. -/
def rxr_pkt_type_readbase_rtm (tagged : Bool) : Nat :=
  RXR_LONGREAD_MSGRTM_PKT + boolToNat tagged

/-- The inputs of rxr_msg_select_rtm that live in tx_entry and the
endpoint.  Memory-type thresholds (hmem_info) and the per-packet-type
eager data capacity (efa_rdm_txe_max_req_data_capacity, outside src)
are passed as separate function parameters. -/
structure SelectInput where
  tagged : Bool
  fi_inject : Bool
  fi_delivery_complete : Bool
  total_len : Nat
  desc0 : Bool
  desc_iface : Nat
  support_rdma_read : Bool
  cache_available : Bool
deriving DecidableEq

/-- Translation of rxr_msg_select_rtm: minRead and maxMedium give
hmem_info[iface].min_read_msg_size and .max_medium_msg_size, cap gives
the eager max data capacity for a packet type. -/
def rxr_msg_select_rtm (minRead maxMedium cap : Nat → Nat) (x : SelectInput) : Nat :=
  let tagged := boolToNat x.tagged
  let iface := if x.desc0 then x.desc_iface else FI_HMEM_SYSTEM
  let dc := if x.fi_inject then false else x.fi_delivery_complete
  let eager_rtm := if dc then RXR_DC_EAGER_MSGRTM_PKT + tagged
                   else RXR_EAGER_MSGRTM_PKT + tagged
  let medium_rtm := if dc then RXR_DC_MEDIUM_MSGRTM_PKT + tagged
                    else RXR_MEDIUM_MSGRTM_PKT + tagged
  let longcts_rtm := if dc then RXR_DC_LONGCTS_MSGRTM_PKT + tagged
                     else RXR_LONGCTS_MSGRTM_PKT + tagged
  let eager_rtm_max_data_size := cap eager_rtm
  let readbase_rtm := rxr_pkt_type_readbase_rtm x.tagged
  if minRead iface ≤ x.total_len ∧ x.support_rdma_read = true ∧
     (x.desc0 = true ∨ x.cache_available = true) then readbase_rtm
  else if x.total_len ≤ eager_rtm_max_data_size then eager_rtm
  else if x.total_len ≤ maxMedium iface then medium_rtm
  else longcts_rtm

/-- Statement of the selection rule in the words of the claim, for the
refinement comparison: read-based when the size reaches the read
threshold and RDMA read is supported and a descriptor or the cache is
available; otherwise the delivery-complete and tagged adjusted eager
type when the size fits that candidate type's eager capacity;
otherwise medium when within the medium threshold; otherwise
long-with-flow-control. -/
def selectRtmSpec (minRead maxMedium cap : Nat → Nat) (x : SelectInput) : Nat :=
  let iface := if x.desc0 then x.desc_iface else FI_HMEM_SYSTEM
  let dc := x.fi_delivery_complete = true ∧ x.fi_inject = false
  let t := boolToNat x.tagged
  let eagerCandidate := (if dc then RXR_DC_EAGER_MSGRTM_PKT else RXR_EAGER_MSGRTM_PKT) + t
  if x.total_len ≥ minRead iface ∧ x.support_rdma_read = true ∧
     (x.desc0 = true ∨ x.cache_available = true) then
    rxr_pkt_type_readbase_rtm x.tagged
  else if x.total_len ≤ cap eagerCandidate then eagerCandidate
  else if x.total_len ≤ maxMedium iface then
    (if dc then RXR_DC_MEDIUM_MSGRTM_PKT else RXR_MEDIUM_MSGRTM_PKT) + t
  else (if dc then RXR_DC_LONGCTS_MSGRTM_PKT else RXR_LONGCTS_MSGRTM_PKT) + t

/-- Externally visible side effects of rxr_msg_post_rtm. -/
inductive PostAction where
  | triggeredHandshake
  | posted (pktType : Nat)
deriving DecidableEq

/-- Translation of rxr_msg_post_rtm.  The peer state is the handshake
flag and the set of REQ types it advertises
(rxr_pkt_req_supported_by_peer, outside src, as a predicate);
rxr_pkt_trigger_handshake and rxr_pkt_post_req results are inputs.
Returns the ssize_t result and the list of performed actions. -/
def rxr_msg_post_rtm (minRead maxMedium cap : Nat → Nat) (x : SelectInput)
    (handshakeReceived : Bool) (supportedByPeer : Nat → Bool)
    (triggerResult postResult : Int) : Int × List PostAction :=
  let rtm := rxr_msg_select_rtm minRead maxMedium cap x
  if rtm < RXR_EXTRA_REQ_PKT_BEGIN then (postResult, [PostAction.posted rtm])
  else if handshakeReceived = false then
    (if triggerResult ≠ 0 then triggerResult else -FI_EAGAIN,
     [PostAction.triggeredHandshake])
  else if supportedByPeer rtm = false then (-FI_EOPNOTSUPP, [])
  else (postResult, [PostAction.posted rtm])

/-! Section: rxr_msg_generic_send and the peer message-id counter. -/

/-- The branch conditions and external results met along
rxr_msg_generic_send, plus the peer counter next_msg_id. -/
structure SendCtx where
  tx_res_full : Bool
  peer_in_backoff : Bool
  alloc_ok : Bool
  p2p_result : Int
  next_msg_id : Nat
  post_result : Int
deriving DecidableEq

/-- Outcome of rxr_msg_generic_send: return value, the peer counter
after the call, the msg_id the tx entry was assigned (if the send got
that far) and whether the tx entry was released on the failure path. -/
structure SendOutcome where
  ret : Int
  next_msg_id : Nat
  assigned_msg_id : Option Nat
  tx_released : Bool
deriving DecidableEq

/-- Translation of rxr_msg_generic_send's control flow around the
next_msg_id counter: early exits (resource full, peer backoff,
allocation failure, p2p query error) touch nothing; otherwise the
counter is post-incremented into msg_id, and a rxr_msg_post_rtm
failure releases the entry and decrements the counter back. -/
def rxr_msg_generic_send (c : SendCtx) : SendOutcome :=
  if c.tx_res_full = true then ⟨-FI_EAGAIN, c.next_msg_id, none, false⟩
  else if c.peer_in_backoff = true then ⟨-FI_EAGAIN, c.next_msg_id, none, false⟩
  else if c.alloc_ok = false then ⟨-FI_EAGAIN, c.next_msg_id, none, false⟩
  else if c.p2p_result < 0 then ⟨c.p2p_result, c.next_msg_id, none, false⟩
  else if c.post_result ≠ 0 then
    ⟨c.post_result, c.next_msg_id + 1 - 1, some c.next_msg_id, true⟩
  else ⟨0, c.next_msg_id + 1, some c.next_msg_id, false⟩

/-! Section: multi-recv master entry lifecycle (rxr_msg.c). -/

/-- State of a posted multi-recv master entry: the total remaining
byte length of its scatter-gather list, the length of its
multi_recv_consumers list, and whether efa_rdm_rxe_release was called
on it. -/
structure MasterState where
  remaining : Nat
  consumers : Nat
  released : Bool
deriving DecidableEq

/-- Translation of rxr_msg_multi_recv_buffer_available: the remaining
scatter-gather length is at least the endpoint minimum multi-recv
size. -/
def rxr_msg_multi_recv_buffer_available (minSize : Nat) (s : MasterState) : Bool :=
  decide (minSize ≤ s.remaining)

/-- Translation of rxr_msg_multi_recv_buffer_complete: the buffer is
no longer available and the consumer list is empty. -/
def rxr_msg_multi_recv_buffer_complete (minSize : Nat) (s : MasterState) : Bool :=
  !rxr_msg_multi_recv_buffer_available minSize s && decide (s.consumers = 0)

/-- Operations that touch a master entry after it is posted: a message
of a given length matching against it (rxr_msg_split_rx_entry inside
rxr_msg_proc_unexp_msg_list or the progress path, followed by the
release check the caller performs), or a consumer entry completing
(rxr_msg_multi_recv_handle_completion followed by
rxr_msg_multi_recv_free_posted_entry, whose callers are outside
src). -/
inductive MOp where
  | splitMatch (msgLen : Nat)
  | consumerDone
deriving DecidableEq

/-- One operation applied to a master entry.  A released entry is gone
from the endpoint, so no further operation reaches it.  splitMatch
consumes MIN(remaining buffer, message length) bytes from the master
scatter-gather list (ofi_consume_iov) and links one consumer; the
caller then releases the master exactly when
rxr_msg_multi_recv_buffer_complete holds.  consumerDone unlinks one
consumer and releases the master under the same test. -/
def applyMOp (minSize : Nat) (s : MasterState) : MOp → MasterState
  | MOp.splitMatch m =>
    if s.released then s
    else
      let s' : MasterState := ⟨s.remaining - min s.remaining m, s.consumers + 1, false⟩
      if rxr_msg_multi_recv_buffer_complete minSize s' then
        ⟨s'.remaining, s'.consumers, true⟩
      else s'
  | MOp.consumerDone =>
    if s.released then s
    else
      let s' : MasterState := ⟨s.remaining, s.consumers - 1, false⟩
      if rxr_msg_multi_recv_buffer_complete minSize s' then
        ⟨s'.remaining, s'.consumers, true⟩
      else s'

def runMOps (minSize : Nat) (s : MasterState) (ops : List MOp) : MasterState :=
  ops.foldl (applyMOp minSize) s

/-! Section: rxr_msg_multi_recv posting path. -/

/-- Result of rxr_msg_multi_recv: return value, the endpoint untagged
unexpected list after the call, whether the posted entry was inserted
into ep rx_list, and the posted master entry if it is still
allocated. -/
structure MultiRecvResult where
  ret : Int
  unexp : List Nat
  insertedRxList : Bool
  master : Option MasterState
deriving DecidableEq

/-- The while loop of rxr_msg_multi_recv over the endpoint untagged
unexpected list (message byte lengths, in arrival order).  Each
iteration lets rxr_msg_proc_unexp_msg_list match the head entry and
split a consumer off the master (the external start_msg delivery
reporting success); when the buffer stops being available the master
is released if already complete and the function returns without
inserting into rx_list; when the list drains, the posted entry is
appended to ep rx_list. -/
def multiRecvLoop (minSize : Nat) : List Nat → MasterState → MultiRecvResult
  | [], s => ⟨0, [], true, some s⟩
  | m :: rest, s =>
    let s' : MasterState := ⟨s.remaining - min s.remaining m, s.consumers + 1, false⟩
    if rxr_msg_multi_recv_buffer_available minSize s' = false then
      if rxr_msg_multi_recv_buffer_complete minSize s' then ⟨0, rest, false, none⟩
      else ⟨0, rest, false, some s'⟩
    else multiRecvLoop minSize rest s'

/-- Translation of rxr_msg_multi_recv: allocate the posted entry
(allocOk false is pool exhaustion), reject a buffer below the minimum
multi-recv size and a tagged multi-recv with -FI_EINVAL releasing the
fresh entry, then drain the unexpected list. bufLen is the total
scatter-gather length recorded in cq_entry.len. -/
def rxr_msg_multi_recv (minSize : Nat) (allocOk : Bool) (tagged : Bool)
    (bufLen : Nat) (unexp : List Nat) : MultiRecvResult :=
  if allocOk = false then ⟨-FI_EAGAIN, unexp, false, none⟩
  else if bufLen < minSize then ⟨-FI_EINVAL, unexp, false, none⟩
  else if tagged = true then ⟨-FI_EINVAL, unexp, false, none⟩
  else multiRecvLoop minSize unexp ⟨bufLen, 0, false⟩

/-! Section: util completion queue (util_cq.c).  The bounded cirque of
committed slots is a list in ring order (head first), each slot
carrying the id it was committed under; the auxiliary overflow slist
is a list in insertion order, each node recording the id of its paired
ring slot (cq_slot).  The cirque primitives and the direct-write path
of ofi_cq_write live in headers outside src and are modelled from the
spec. -/

/-- One completion record (the fields of fi_cq_tagged_entry together
with the error code that fi_cq_err_entry adds; err is zero for normal
completions). -/
structure Comp where
  op_context : Nat
  flags : Nat
  len : Nat
  buf : Nat
  data : Nat
  tag : Nat
  err : Nat
deriving DecidableEq

/-- Content of a committed ring slot: a completion written directly
(with its source address), or the UTIL_FLAG_AUX placeholder flag. -/
inductive SlotKind where
  | real (c : Comp) (src : Nat)
  | auxflag
deriving DecidableEq

structure Slot where
  id : Nat
  kind : SlotKind
deriving DecidableEq

/-- One node of the auxiliary overflow queue (struct
util_cq_aux_entry): the completion, its source address and the id of
its cq_slot. -/
structure AuxEntry where
  comp : Comp
  src : Nat
  slot : Nat
deriving DecidableEq

/-- The util_cq state: ring capacity, the id the next committed slot
receives, the committed ring slots in order, and the auxiliary
queue in insertion order. -/
structure UtilCQ where
  size : Nat
  nextId : Nat
  ring : List Slot
  aux : List AuxEntry
deriving DecidableEq

def isAuxSlot (s : Slot) : Bool :=
  match s.kind with
  | SlotKind.auxflag => true
  | SlotKind.real _ _ => false

/-- Ids of the UTIL_FLAG_AUX slots of a ring, in ring order. -/
def auxIds (ring : List Slot) : List Nat :=
  (ring.filter isAuxSlot).map Slot.id

/-- Completions of the auxiliary nodes paired with slot id i, in
insertion order. -/
def groupFor (aux : List AuxEntry) (i : Nat) : List Comp :=
  (aux.filter (fun a => decide (a.slot = i))).map AuxEntry.comp

/-- Mark the last committed slot with UTIL_FLAG_AUX (what the
assignment entry.cq_slot flags UTIL_FLAG_AUX does when no new slot
was committed). -/
def markLastAux : List Slot → List Slot
  | [] => []
  | [s] => [⟨s.id, SlotKind.auxflag⟩]
  | s :: t :: rest => s :: markLastAux (t :: rest)

def lastId (ring : List Slot) : Nat :=
  match ring.getLast? with
  | none => 0
  | some s => s.id

/-- Translation of ofi_cq_insert_aux: when the cirque is not full a
fresh placeholder slot is committed and flagged; the new node pairs
with the tail slot (the placeholder just committed, or the existing
last slot when the ring was already full) and is appended to the
auxiliary queue. -/
def ofi_cq_insert_aux (cq : UtilCQ) (comp : Comp) (src : Nat) : UtilCQ :=
  if cq.ring.length < cq.size then
    ⟨cq.size, cq.nextId + 1, cq.ring ++ [⟨cq.nextId, SlotKind.auxflag⟩],
     cq.aux ++ [⟨comp, src, cq.nextId⟩]⟩
  else
    ⟨cq.size, cq.nextId, markLastAux cq.ring,
     cq.aux ++ [⟨comp, src, lastId (markLastAux cq.ring)⟩]⟩

/-- Translation of ofi_cq_write_overflow: the overflow node stores the
completion with err forced to zero. -/
def ofi_cq_write_overflow (cq : UtilCQ) (c : Comp) (src : Nat) : UtilCQ :=
  ofi_cq_insert_aux cq ⟨c.op_context, c.flags, c.len, c.buf, c.data, c.tag, 0⟩ src

/-- Translation of ofi_cq_insert_error: the error entry (err nonzero
asserted by the source) goes through ofi_cq_insert_aux unchanged. -/
def ofi_cq_insert_error (cq : UtilCQ) (e : Comp) (src : Nat) : UtilCQ :=
  ofi_cq_insert_aux cq e src

/-- Modelled from the spec: the ofi_cq_write fast path (header code)
writes the completion directly into the ring while more than one free
slot remains, and otherwise goes through the overflow path. -/
def ofi_cq_write (cq : UtilCQ) (c : Comp) (src : Nat) : UtilCQ :=
  if cq.ring.length + 1 < cq.size then
    ⟨cq.size, cq.nextId + 1,
     cq.ring ++ [⟨cq.nextId, SlotKind.real ⟨c.op_context, c.flags, c.len, c.buf, c.data, c.tag, 0⟩ src⟩],
     cq.aux⟩
  else ofi_cq_write_overflow cq c src

def cqWriteList (cq : UtilCQ) (ws : List (Comp × Nat)) : UtilCQ :=
  ws.foldl (fun q p => ofi_cq_write q p.1 p.2) cq

/-- Result of one readLoop run: copied completions in order, the
queue afterwards, and whether the loop stopped at an error node. -/
structure RFout where
  out : List Comp
  cq : UtilCQ
  hitErr : Bool
deriving DecidableEq

/-- The for loop of ofi_cq_readfrom, iterating the precomputed count.
A real head slot is copied and discarded; a UTIL_FLAG_AUX head slot
delivers the head auxiliary node unless that node carries an error
(then the loop breaks leaving everything in place); after consuming an
auxiliary node the ring slot is discarded unless the next auxiliary
node pairs with that same slot. -/
def readLoop : Nat → UtilCQ → RFout
  | 0, cq => ⟨[], cq, false⟩
  | Nat.succ n, cq =>
    match cq.ring with
    | [] => ⟨[], cq, false⟩
    | s :: rest =>
      match s.kind with
      | SlotKind.real c _ =>
        let r := readLoop n ⟨cq.size, cq.nextId, rest, cq.aux⟩
        ⟨c :: r.out, r.cq, r.hitErr⟩
      | SlotKind.auxflag =>
        match cq.aux with
        | [] => ⟨[], cq, false⟩
        | a :: arest =>
          if a.comp.err ≠ 0 then ⟨[], cq, true⟩
          else
            let ring' := match arest with
              | [] => rest
              | b :: _ => if b.slot = s.id then s :: rest else rest
            let r := readLoop n ⟨cq.size, cq.nextId, ring', arest⟩
            ⟨a.comp :: r.out, r.cq, r.hitErr⟩

structure ReadfromResult where
  ret : Int
  out : List Comp
  cq : UtilCQ
deriving DecidableEq

/-- Translation of ofi_cq_readfrom: an empty cirque (after the one
progress attempt, modelled as a no-op) returns -FI_EAGAIN; otherwise
the count is capped at the slots used and the loop runs; hitting an
error node first returns -FI_EAVAIL, otherwise the number of copied
entries is returned. -/
def ofi_cq_readfrom (cq : UtilCQ) (count : Nat) : ReadfromResult :=
  if cq.ring.isEmpty then ⟨-FI_EAGAIN, [], cq⟩
  else
    let r := readLoop (min count cq.ring.length) cq
    ⟨if r.hitErr && r.out.isEmpty then -FI_EAVAIL else (r.out.length : Int),
     r.out, r.cq⟩

structure ReaderrResult where
  ret : Int
  out : Option Comp
  cq : UtilCQ
deriving DecidableEq

/-- The condition under which ofi_cq_readerr delivers an entry: a
nonempty cirque whose head slot is UTIL_FLAG_AUX and whose head
auxiliary node carries a nonzero error. -/
def readErrReady (cq : UtilCQ) : Bool :=
  match cq.ring with
  | [] => false
  | s :: _ =>
    match s.kind with
    | SlotKind.real _ _ => false
    | SlotKind.auxflag =>
      match cq.aux with
      | [] => false
      | a :: _ => decide (a.comp.err ≠ 0)

/-- Translation of ofi_cq_readerr: return -FI_EAGAIN leaving the queue
untouched unless the head slot is auxiliary with an error node; then
copy the node out (the err_data truncation applies to a caller buffer
and is not part of the queue state), unlink it, and discard the ring
slot unless the next auxiliary node pairs with it. -/
def ofi_cq_readerr (cq : UtilCQ) : ReaderrResult :=
  match cq.ring with
  | [] => ⟨-FI_EAGAIN, none, cq⟩
  | s :: rest =>
    match s.kind with
    | SlotKind.real _ _ => ⟨-FI_EAGAIN, none, cq⟩
    | SlotKind.auxflag =>
      match cq.aux with
      | [] => ⟨-FI_EAGAIN, none, cq⟩
      | a :: arest =>
        if a.comp.err = 0 then ⟨-FI_EAGAIN, none, cq⟩
        else
          let ring' := match arest with
            | [] => rest
            | b :: _ => if b.slot = s.id then s :: rest else rest
          ⟨1, some a.comp, ⟨cq.size, cq.nextId, ring', arest⟩⟩

/-- Interleaving abstraction of the hybrid ring plus auxiliary
structure: the completions in global FIFO order, a real slot
contributing itself and an auxiliary slot contributing its paired
nodes in insertion order. -/
def absFrom (aux : List AuxEntry) : List Slot → List Comp
  | [] => []
  | s :: rest =>
    (match s.kind with
     | SlotKind.real c _ => [c]
     | SlotKind.auxflag => groupFor aux s.id) ++ absFrom aux rest

def absCQ (cq : UtilCQ) : List Comp := absFrom cq.aux cq.ring

def lastAux (ring : List Slot) : Bool :=
  match ring.getLast? with
  | none => true
  | some s => isAuxSlot s

/-- Well-formedness of a util_cq state: positive capacity respected by
the ring; strictly increasing slot ids below the id counter; every
auxiliary node paired with an existing auxiliary slot; every auxiliary
slot owning at least one node; node pairings in ring order; and a full
ring ending in its placeholder slot. -/
def wfCQ (cq : UtilCQ) : Prop :=
  0 < cq.size ∧
  cq.ring.length ≤ cq.size ∧
  cq.ring.Pairwise (fun s t => s.id < t.id) ∧
  (∀ s ∈ cq.ring, s.id < cq.nextId) ∧
  (∀ a ∈ cq.aux, a.slot ∈ auxIds cq.ring) ∧
  (∀ s ∈ cq.ring, isAuxSlot s = true → ∃ a ∈ cq.aux, a.slot = s.id) ∧
  cq.aux.Pairwise (fun a b => a.slot ≤ b.slot) ∧
  (cq.ring.length = cq.size → lastAux cq.ring = true)

instance (cq : UtilCQ) : Decidable (wfCQ cq) := by
  unfold wfCQ; infer_instance

/-! Section: GNI buddy allocator (gnix_buddy_allocator.c).  Pointers
are byte offsets from the base; the free lists are an array of lists
of offsets indexed by size class; the bitmap is the set of set bit
indices.  The helper macros (BLOCK_SIZE, LIST_INDEX, OFFSET, BUDDY,
BITMAP_INDEX) live in the header outside src and are modelled from
the spec; the bitmap index uses the sequential per-class layout drawn
in the source's own diagram, one region per size class. -/

def MIN_BLOCK_SIZE : Nat := 16

/-- Fuel-driven floor base-two logarithm, written so that it reduces
by kernel computation (Nat.log2 in core uses well-founded recursion). -/
def gnixLog2Fuel : Nat → Nat → Nat
  | 0, _ => 0
  | Nat.succ fuel, n => if 2 ≤ n then gnixLog2Fuel fuel (n / 2) + 1 else 0

def gnixLog2 (n : Nat) : Nat := gnixLog2Fuel n n

/-- Modelled from the spec: smallest size class of at least the
requested length (minimum block size for small requests, otherwise
the next power of two at or above the length). -/
def gnixBlockSize (l m : Nat) : Nat :=
  if l ≤ m then m else 2 ^ (gnixLog2 (l - 1) + 1)

/-- Modelled from the spec: free-list index of a block size,
log2 (bsize divided by the minimum block size). -/
def gnixListIndex (bsize m : Nat) : Nat := gnixLog2 (bsize / m)

/-- Modelled from the spec: size of a class-j block, the minimum block
size shifted left j times. -/
def gnixOffset (m j : Nat) : Nat := m * 2 ^ j

/-- Modelled from the spec: the buddy of a block is at the offset with
the block-size bit toggled. -/
def gnixBuddy (o bsize : Nat) : Nat := o ^^^ bsize

/-- Modelled from the spec: index of a block's bit with one bitmap
region per size class in increasing class order (the redundant doubled
layout of the source diagram); totalLen is the managed length. -/
def gnixBitmapIndex (totalLen minB o bsize : Nat) : Nat :=
  (2 * (totalLen / minB) - 2 * (totalLen / minB) / (bsize / minB)) + o / bsize

/-- Buddy allocator handle and mutable state: managed length, maximum
block size, free lists by class (offsets in dlist order) and bitmap. -/
structure BuddyState where
  len : Nat
  max : Nat
  lists : List (List Nat)
  bitmap : Finset Nat
deriving DecidableEq

def buddyNlists (s : BuddyState) : Nat := gnixLog2 (s.max / MIN_BLOCK_SIZE) + 1

def getList (s : BuddyState) (k : Nat) : List Nat := s.lists.getD k []

def setList (s : BuddyState) (k : Nat) (v : List Nat) : BuddyState :=
  ⟨s.len, s.max, s.lists.set k v, s.bitmap⟩

def bIdx (s : BuddyState) (o bsize : Nat) : Nat :=
  gnixBitmapIndex s.len MIN_BLOCK_SIZE o bsize

def setBit (s : BuddyState) (i : Nat) : BuddyState :=
  ⟨s.len, s.max, s.lists, insert i s.bitmap⟩

def clearBit (s : BuddyState) (i : Nat) : BuddyState :=
  ⟨s.len, s.max, s.lists, s.bitmap.erase i⟩

/-- The descending for loop of __gnix_buddy_split: at each level from
lvl down to i + 1, set the bit of the upper half block at that level
and append it to that level's free list. -/
def splitSteps (tmp i : Nat) : Nat → BuddyState → BuddyState
  | 0, s => s
  | Nat.succ l, s =>
    if Nat.succ l ≤ i then s
    else
      let off := gnixOffset MIN_BLOCK_SIZE (Nat.succ l)
      let s1 := setBit s (bIdx s (tmp + off) off)
      let s2 := setList s1 (Nat.succ l) (getList s1 (Nat.succ l) ++ [tmp + off])
      splitSteps tmp i l s2

/-- Translation of __gnix_buddy_split: remove the head block of list
j, set its bit at class j, push the intermediate upper halves down to
class i + 1, then insert the block at the head of list i and its
buddy at the tail. -/
def gnix_buddy_split (s : BuddyState) (j i : Nat) : BuddyState :=
  let tmp := (getList s j).headD 0
  let s1 := setList s j ((getList s j).drop 1)
  let s2 := setBit s1 (bIdx s1 tmp (gnixOffset MIN_BLOCK_SIZE j))
  let s3 := splitSteps tmp i (j - 1) s2
  let s4 := setList s3 i (tmp :: getList s3 i)
  setList s4 i (getList s4 i ++ [tmp + gnixOffset MIN_BLOCK_SIZE i])

/-- Translation of __gnix_buddy_find_block: the first class strictly
above i whose free list is nonempty. -/
def gnix_buddy_find_block (s : BuddyState) (i : Nat) : Option Nat :=
  ((List.range (buddyNlists s)).filter
    (fun j => decide (i < j) && !(getList s j).isEmpty)).head?

inductive BuddyAllocResult where
  | ok (ptr : Nat) (s : BuddyState)
  | err (code : Int)
deriving DecidableEq

/-- The tail of _gnix_buddy_alloc once list i is nonempty: remove the
block from the tail of the list for odd classes and from the head for
even classes, and set its bit. -/
def gnixAllocFinish (s : BuddyState) (i bsize : Nat) : Nat × BuddyState :=
  let lst := getList s i
  let ptr := if i % 2 = 1 then lst.getLastD 0 else lst.headD 0
  let lst' := if i % 2 = 1 then lst.dropLast else lst.drop 1
  let s1 := setList s i lst'
  (ptr, setBit s1 (bIdx s1 ptr bsize))

/-- Translation of _gnix_buddy_alloc. -/
def gnix_buddy_alloc (s : BuddyState) (l : Nat) : BuddyAllocResult :=
  if l = 0 ∨ s.max < l then BuddyAllocResult.err (-FI_EINVAL)
  else
    let bsize := gnixBlockSize l MIN_BLOCK_SIZE
    let i := gnixListIndex bsize MIN_BLOCK_SIZE
    if (getList s i).isEmpty then
      match gnix_buddy_find_block s i with
      | none => BuddyAllocResult.err (-FI_ENOMEM)
      | some j =>
        let p := gnixAllocFinish (gnix_buddy_split s j i) i bsize
        BuddyAllocResult.ok p.1 p.2
    else
      let p := gnixAllocFinish s i bsize
      BuddyAllocResult.ok p.1 p.2

/-- The while loop of __gnix_buddy_coalesce, with fuel for
termination: while below the maximum block size and the buddy bit is
clear, unlink the buddy from its class list, move to the lower
offset, double the size and clear the merged block's bit. -/
def coalesceLoop : Nat → BuddyState → Nat → Nat → Nat × Nat × BuddyState
  | 0, s, p, b => (p, b, s)
  | Nat.succ fuel, s, p, b =>
    if b < s.max ∧ bIdx s (gnixBuddy p b) b ∉ s.bitmap then
      let bud := gnixBuddy p b
      let k := gnixListIndex b MIN_BLOCK_SIZE
      let s1 := setList s k ((getList s k).erase bud)
      let p' := min p bud
      let b' := b * 2
      let s2 := clearBit s1 (bIdx s1 p' b')
      coalesceLoop fuel s2 p' b'
    else (p, b, s)

inductive BuddyFreeResult where
  | ok (s : BuddyState)
  | err (code : Int)
deriving DecidableEq

/-- Translation of _gnix_buddy_free: validate the arguments, clear the
block's bit, coalesce upwards, and insert the final block at the tail
of its class list. -/
def gnix_buddy_free (s : BuddyState) (ptr l : Nat) : BuddyFreeResult :=
  if l = 0 ∨ s.max < l ∨ s.len ≤ ptr then BuddyFreeResult.err (-FI_EINVAL)
  else
    let bsize := gnixBlockSize l MIN_BLOCK_SIZE
    let s1 := clearBit s (bIdx s ptr bsize)
    let r := coalesceLoop (buddyNlists s1) s1 ptr bsize
    BuddyFreeResult.ok
      (setList r.2.2 (gnixListIndex r.2.1 MIN_BLOCK_SIZE)
        (getList r.2.2 (gnixListIndex r.2.1 MIN_BLOCK_SIZE) ++ [r.1]))

def isPowTwo (n : Nat) : Bool := decide (n ≠ 0) && decide (n &&& (n - 1) = 0)

/-- Translation of _gnix_buddy_allocator_create together with
__gnix_buddy_create_lists: validate, build empty lists for every
class, seed the top class with the max-size blocks in address order,
and start with an all-clear bitmap. -/
def gnix_buddy_allocator_create (lenT maxB : Nat) : Option BuddyState :=
  if lenT = 0 ∨ maxB = 0 ∨ lenT < maxB ∨ isPowTwo maxB = false ∨ lenT % maxB ≠ 0 then
    none
  else
    let n := gnixLog2 (maxB / MIN_BLOCK_SIZE) + 1
    some ⟨lenT, maxB,
      (List.range n).map (fun k =>
        if k = n - 1 then (List.range (lenT / maxB)).map (fun q => q * maxB) else []),
      ∅⟩

/-- One alloc immediately followed by the matching free, the round
trip of the idempotence property. -/
def allocFreeRound (s : BuddyState) (l : Nat) : Option BuddyState :=
  match gnix_buddy_alloc s l with
  | BuddyAllocResult.ok p s1 =>
    match gnix_buddy_free s1 p l with
    | BuddyFreeResult.ok s2 => some s2
    | BuddyFreeResult.err _ => none
  | BuddyAllocResult.err _ => none

/-- Size class serving an allocation request. -/
def allocClass (l : Nat) : Nat :=
  gnixListIndex (gnixBlockSize l MIN_BLOCK_SIZE) MIN_BLOCK_SIZE

/-- The block the alloc parity heuristic removes from class list i. -/
def allocTarget (s : BuddyState) (i : Nat) : Nat :=
  if i % 2 = 1 then (getList s i).getLastD 0 else (getList s i).headD 0

/-! Theorems.  Helper lemmas come first, then one theorem per claim
with its witness or counterexample. -/

theorem find?_first_decomp {α : Type} (p : α → Bool) :
    ∀ (l : List α) (e : α), l.find? p = some e →
      p e = true ∧ ∃ pre post, l = pre ++ e :: post ∧ ∀ x ∈ pre, p x = false := by
  intro l
  induction l with
  | nil => intro e h; simp at h
  | cons a t ih =>
    intro e h
    by_cases hp : p a = true
    · rw [List.find?_cons_of_pos _ hp] at h
      obtain rfl : a = e := by injection h
      exact ⟨hp, [], t, rfl, by simp⟩
    · rw [List.find?_cons_of_neg _ hp] at h
      obtain ⟨he, pre, post, rfl, hpre⟩ := ih e h
      refine ⟨he, a :: pre, post, rfl, ?_⟩
      intro x hx
      rcases List.mem_cons.1 hx with rfl | hx
      · exact Bool.eq_false_iff.2 hp
      · exact hpre x hx

/-- C1: for a posted tagged receive with tag tag and mask ignore, the
unexpected-list search selects the first entry in list order whose
stored tag matches under (stored AND NOT ignore) equals (posted AND
NOT ignore), and selects none exactly when no entry matches. -/
theorem claim_C1 (peerList : Option (List RxEntry)) (epList : List RxEntry)
    (tag ignore : Nat) :
    (rxr_msg_find_unexp_rx_entry true peerList epList tag ignore = none ↔
      ∀ e ∈ searchedList peerList epList, ofi_match_tag e.tag ignore tag = false) ∧
    (∀ e, rxr_msg_find_unexp_rx_entry true peerList epList tag ignore = some e →
      ofi_match_tag e.tag ignore tag = true ∧
      ∃ pre post, searchedList peerList epList = pre ++ e :: post ∧
        ∀ x ∈ pre, ofi_match_tag x.tag ignore tag = false) := by
  have hfind : rxr_msg_find_unexp_rx_entry true peerList epList tag ignore =
      (searchedList peerList epList).find?
        (fun e => ofi_match_tag e.tag ignore tag) := by
    cases peerList <;>
      rfl
  rw [hfind]
  constructor
  · rw [List.find?_eq_none]
    constructor
    · intro h e he
      have := h e he
      simpa using this
    · intro h e he
      simp [h e he]
  · intro e h
    exact find?_first_decomp _ _ e h

theorem claim_C1_witness :
    ofi_match_tag 5 0 5 = true ∧
    ∃ pre post,
      searchedList none [⟨1, 9⟩, ⟨2, 5⟩, ⟨3, 5⟩] = pre ++ (⟨2, 5⟩ : RxEntry) :: post ∧
      ∀ x ∈ pre, ofi_match_tag x.tag 0 5 = false :=
  (claim_C1 none [⟨1, 9⟩, ⟨2, 5⟩, ⟨3, 5⟩] 5 0).2 ⟨2, 5⟩ (by decide)

/-- C2: rxr_msg_select_rtm is a function of its inputs and agrees at
every input with the selection rule the claim states: read-based under
the read threshold and capability conditions, else the adjusted eager
type under its own capacity, else medium under the medium threshold,
else long-with-flow-control. -/
theorem claim_C2 (minRead maxMedium cap : Nat → Nat) (x : SelectInput) :
    rxr_msg_select_rtm minRead maxMedium cap x = selectRtmSpec minRead maxMedium cap x := by
  unfold rxr_msg_select_rtm selectRtmSpec
  cases hi : x.fi_inject <;> cases hd : x.fi_delivery_complete <;>
    simp [hi, hd, ge_iff_le]

/-- C6 counterexample: with an extra-capability RTM type selected and
no handshake received, a failing rxr_pkt_trigger_handshake makes
rxr_msg_post_rtm return the trigger's error, not -FI_EAGAIN, refuting
the claim that -FI_EAGAIN is returned in this situation. -/
theorem claim_C6_counterexample :
    RXR_EXTRA_REQ_PKT_BEGIN ≤ rxr_msg_select_rtm (fun _ => 1000) (fun _ => 500)
      (fun _ => 100) ⟨false, false, true, 5, false, 0, false, false⟩ ∧
    (rxr_msg_post_rtm (fun _ => 1000) (fun _ => 500) (fun _ => 100)
      ⟨false, false, true, 5, false, 0, false, false⟩ false (fun _ => false)
      (-FI_ENOMEM) 0).1 = -FI_ENOMEM ∧
    (-FI_ENOMEM : Int) ≠ -FI_EAGAIN := by decide

/-- C6 amended: for an RTM type requiring an extra capability, no
handshake received triggers a handshake exchange and returns
-FI_EAGAIN when the trigger succeeds (the trigger's own error
otherwise) without posting; a received handshake without the
capability returns -FI_EOPNOTSUPP without posting; otherwise the
packet is posted. -/
theorem claim_C6 (minRead maxMedium cap : Nat → Nat) (x : SelectInput)
    (handshakeReceived : Bool) (supportedByPeer : Nat → Bool)
    (triggerResult postResult : Int)
    (hx : RXR_EXTRA_REQ_PKT_BEGIN ≤ rxr_msg_select_rtm minRead maxMedium cap x) :
    (handshakeReceived = false →
      rxr_msg_post_rtm minRead maxMedium cap x handshakeReceived supportedByPeer
          triggerResult postResult =
        (if triggerResult ≠ 0 then triggerResult else -FI_EAGAIN,
         [PostAction.triggeredHandshake])) ∧
    (handshakeReceived = true →
      supportedByPeer (rxr_msg_select_rtm minRead maxMedium cap x) = false →
      rxr_msg_post_rtm minRead maxMedium cap x handshakeReceived supportedByPeer
          triggerResult postResult = (-FI_EOPNOTSUPP, [])) ∧
    (handshakeReceived = true →
      supportedByPeer (rxr_msg_select_rtm minRead maxMedium cap x) = true →
      rxr_msg_post_rtm minRead maxMedium cap x handshakeReceived supportedByPeer
          triggerResult postResult =
        (postResult, [PostAction.posted (rxr_msg_select_rtm minRead maxMedium cap x)])) := by
  have hlt : ¬ rxr_msg_select_rtm minRead maxMedium cap x < RXR_EXTRA_REQ_PKT_BEGIN :=
    Nat.not_lt.2 hx
  refine ⟨?_, ?_, ?_⟩
  · intro h1
    simp [rxr_msg_post_rtm, hlt, h1]
  · intro h1 h2
    simp [rxr_msg_post_rtm, hlt, h1, h2]
  · intro h1 h2
    simp [rxr_msg_post_rtm, hlt, h1, h2]

theorem claim_C6_witness :
    RXR_EXTRA_REQ_PKT_BEGIN ≤ rxr_msg_select_rtm (fun _ => 1000) (fun _ => 500)
      (fun _ => 100) ⟨false, false, true, 5, false, 0, false, false⟩ ∧
    rxr_msg_post_rtm (fun _ => 1000) (fun _ => 500) (fun _ => 100)
      ⟨false, false, true, 5, false, 0, false, false⟩ false (fun _ => false) 0 0 =
      (-FI_EAGAIN, [PostAction.triggeredHandshake]) := by
  have h := (claim_C6 (fun _ => 1000) (fun _ => 500) (fun _ => 100)
    ⟨false, false, true, 5, false, 0, false, false⟩ false (fun _ => false) 0 0
    (by decide)).1 rfl
  refine ⟨by decide, ?_⟩
  simpa using h

/-- C7: a multi-recv post whose total buffer length is below the
endpoint minimum, and a tagged multi-recv post, are rejected with
-FI_EINVAL before any endpoint state changes: the unexpected list is
untouched, nothing is inserted into the posted list and no master
entry survives. -/
theorem claim_C7 (minSize : Nat) (tagged : Bool) (bufLen : Nat) (unexp : List Nat)
    (h : bufLen < minSize ∨ tagged = true) :
    rxr_msg_multi_recv minSize true tagged bufLen unexp =
      ⟨-FI_EINVAL, unexp, false, none⟩ := by
  rcases h with h | h
  · simp [rxr_msg_multi_recv, h]
  · by_cases hb : bufLen < minSize <;> simp [rxr_msg_multi_recv, hb, h]

theorem claim_C7_witness :
    rxr_msg_multi_recv 100 true false 50 [10, 20] =
      ⟨-FI_EINVAL, [10, 20], false, none⟩ :=
  claim_C7 100 false 50 [10, 20] (Or.inl (by decide))

/-- C10: rxr_msg_generic_send increments the peer next_msg_id counter
by exactly one when the post succeeds (return zero, the entry getting
the old counter value as msg_id); on every failing return the counter
is back at its pre-call value, and a rxr_msg_post_rtm failure also
releases the tx entry. -/
theorem claim_C10 (c : SendCtx) :
    ((rxr_msg_generic_send c).ret = 0 →
      (rxr_msg_generic_send c).next_msg_id = c.next_msg_id + 1 ∧
      (rxr_msg_generic_send c).assigned_msg_id = some c.next_msg_id) ∧
    ((rxr_msg_generic_send c).ret ≠ 0 →
      (rxr_msg_generic_send c).next_msg_id = c.next_msg_id) ∧
    (c.tx_res_full = false → c.peer_in_backoff = false → c.alloc_ok = true →
      0 ≤ c.p2p_result → c.post_result ≠ 0 →
      (rxr_msg_generic_send c).ret = c.post_result ∧
      (rxr_msg_generic_send c).tx_released = true) := by
  have hne : (-FI_EAGAIN : Int) ≠ 0 := by decide
  unfold rxr_msg_generic_send
  split_ifs with h1 h2 h3 h4 h5 <;> simp_all
  all_goals omega

theorem claim_C10_witness :
    (rxr_msg_generic_send ⟨false, false, true, 0, 7, 0⟩).next_msg_id = 7 + 1 ∧
    (rxr_msg_generic_send ⟨false, false, true, 0, 7, 0⟩).assigned_msg_id = some 7 :=
  (claim_C10 ⟨false, false, true, 0, 7, 0⟩).1 (by decide)

theorem applyMOp_of_released (minSize : Nat) (s : MasterState) (op : MOp)
    (h : s.released = true) : applyMOp minSize s op = s := by
  cases op <;> simp [applyMOp, h]

theorem runMOps_of_released (minSize : Nat) (ops : List MOp) :
    ∀ s : MasterState, s.released = true → runMOps minSize s ops = s := by
  induction ops with
  | nil => intro s _; rfl
  | cons op rest ih =>
    intro s h
    show runMOps minSize (applyMOp minSize s op) rest = s
    rw [applyMOp_of_released minSize s op h]
    exact ih s h

theorem applyMOp_good (minSize : Nat) (s : MasterState) (op : MOp)
    (h : s.released = true ↔ rxr_msg_multi_recv_buffer_complete minSize s = true) :
    (applyMOp minSize s op).released = true ↔
      rxr_msg_multi_recv_buffer_complete minSize (applyMOp minSize s op) = true := by
  by_cases hr : s.released = true
  · rw [applyMOp_of_released minSize s op hr]; exact h
  · have hr' : s.released = false := Bool.eq_false_iff.2 hr
    cases op with
    | splitMatch m =>
      have hc : rxr_msg_multi_recv_buffer_complete minSize
          ⟨s.remaining - min s.remaining m, s.consumers + 1, false⟩ = false := by
        simp [rxr_msg_multi_recv_buffer_complete]
      simp [applyMOp, hr', hc]
    | consumerDone =>
      by_cases hc : rxr_msg_multi_recv_buffer_complete minSize
          ⟨s.remaining, s.consumers - 1, false⟩ = true
      · have hc' : rxr_msg_multi_recv_buffer_complete minSize
            ⟨s.remaining, s.consumers - 1, true⟩ = true := by
          simpa [rxr_msg_multi_recv_buffer_complete,
            rxr_msg_multi_recv_buffer_available] using hc
        simp [applyMOp, hr', hc, hc']
      · simp [applyMOp, hr', hc]

theorem runMOps_good (minSize : Nat) (ops : List MOp) :
    ∀ s : MasterState,
      (s.released = true ↔ rxr_msg_multi_recv_buffer_complete minSize s = true) →
      ((runMOps minSize s ops).released = true ↔
        rxr_msg_multi_recv_buffer_complete minSize (runMOps minSize s ops) = true) := by
  induction ops with
  | nil => intro s h; exact h
  | cons op rest ih =>
    intro s h
    exact ih (applyMOp minSize s op) (applyMOp_good minSize s op h)

theorem runMOps_take_mono (minSize : Nat) (ops : List MOp) (s : MasterState)
    (n m : Nat) (hnm : n ≤ m)
    (h : (runMOps minSize s (ops.take n)).released = true) :
    (runMOps minSize s (ops.take m)).released = true := by
  have hsplit : ops.take m = ops.take n ++ (ops.take m).drop n := by
    rw [List.drop_take]
    rw [← List.take_add]
    congr 1
    omega
  rw [hsplit]
  unfold runMOps
  rw [List.foldl_append]
  have := runMOps_of_released minSize ((ops.take m).drop n)
    (runMOps minSize s (ops.take n)) h
  unfold runMOps at this
  rw [this]
  exact h

/-- C4: from a valid multi-recv post (buffer at least the minimum,
no consumers, allocated master), after any sequence of matches and
consumer completions the master has been released exactly when
rxr_msg_multi_recv_buffer_complete holds of it (remaining below the
minimum and consumer list empty), and the release happens at most
once along the trace. -/
theorem claim_C4 (minSize : Nat) (ops : List MOp) (bufLen : Nat)
    (hmin : minSize ≤ bufLen) :
    ((runMOps minSize ⟨bufLen, 0, false⟩ ops).released = true ↔
      rxr_msg_multi_recv_buffer_complete minSize
        (runMOps minSize ⟨bufLen, 0, false⟩ ops) = true) ∧
    (∀ i j : Nat,
      (runMOps minSize ⟨bufLen, 0, false⟩ (ops.take i)).released = false ∧
        (runMOps minSize ⟨bufLen, 0, false⟩ (ops.take (i + 1))).released = true →
      (runMOps minSize ⟨bufLen, 0, false⟩ (ops.take j)).released = false ∧
        (runMOps minSize ⟨bufLen, 0, false⟩ (ops.take (j + 1))).released = true →
      i = j) := by
  have hinit : ((⟨bufLen, 0, false⟩ : MasterState).released = true ↔
      rxr_msg_multi_recv_buffer_complete minSize ⟨bufLen, 0, false⟩ = true) := by
    simp [rxr_msg_multi_recv_buffer_complete, rxr_msg_multi_recv_buffer_available, hmin]
  refine ⟨runMOps_good minSize ops _ hinit, ?_⟩
  intro i j hi hj
  by_contra hne
  rcases Nat.lt_or_ge i j with hij | hij
  · have : (runMOps minSize ⟨bufLen, 0, false⟩ (ops.take j)).released = true :=
      runMOps_take_mono minSize ops _ (i + 1) j hij hi.2
    rw [hj.1] at this
    exact absurd this (by simp)
  · have hji : j < i := lt_of_le_of_ne hij (fun h => hne h.symm)
    have : (runMOps minSize ⟨bufLen, 0, false⟩ (ops.take i)).released = true :=
      runMOps_take_mono minSize ops _ (j + 1) i hji hj.2
    rw [hi.1] at this
    exact absurd this (by simp)

theorem groupFor_cons (a : AuxEntry) (t : List AuxEntry) (i : Nat) :
    groupFor (a :: t) i = if a.slot = i then a.comp :: groupFor t i else groupFor t i := by
  by_cases h : a.slot = i <;> simp [groupFor, List.filter_cons, h]

theorem groupFor_append (l1 l2 : List AuxEntry) (i : Nat) :
    groupFor (l1 ++ l2) i = groupFor l1 i ++ groupFor l2 i := by
  simp [groupFor, List.filter_append]

theorem groupFor_eq_nil (l : List AuxEntry) (i : Nat) (h : ∀ a ∈ l, a.slot ≠ i) :
    groupFor l i = [] := by
  have hf : l.filter (fun a => decide (a.slot = i)) = [] := by
    rw [List.filter_eq_nil_iff]
    intro a ha
    simpa using h a ha
  simp [groupFor, hf]

theorem absFrom_append (aux : List AuxEntry) (l1 l2 : List Slot) :
    absFrom aux (l1 ++ l2) = absFrom aux l1 ++ absFrom aux l2 := by
  induction l1 with
  | nil => rfl
  | cons s t ih => simp [absFrom, ih]

theorem absFrom_congrGroups (aux1 aux2 : List AuxEntry) :
    ∀ ring : List Slot,
      (∀ s ∈ ring, isAuxSlot s = true → groupFor aux1 s.id = groupFor aux2 s.id) →
      absFrom aux1 ring = absFrom aux2 ring := by
  intro ring
  induction ring with
  | nil => intro _; rfl
  | cons s rest ih =>
    intro h
    have htail := ih (fun t ht hx => h t (List.mem_cons_of_mem _ ht) hx)
    cases hk : s.kind with
    | real c src => simp [absFrom, hk, htail]
    | auxflag =>
      have hh := h s (List.mem_cons_self _ _) (by simp [isAuxSlot, hk])
      simp [absFrom, hk, htail, hh]

theorem mem_auxIds {i : Nat} {ring : List Slot} :
    i ∈ auxIds ring ↔ ∃ s ∈ ring, isAuxSlot s = true ∧ s.id = i := by
  simp only [auxIds, List.mem_map, List.mem_filter]
  constructor
  · rintro ⟨s, ⟨hm, hx⟩, hid⟩; exact ⟨s, hm, hx, hid⟩
  · rintro ⟨s, hm, hx, hid⟩; exact ⟨s, ⟨hm, hx⟩, hid⟩

theorem auxIds_cons_real (s : Slot) (rest : List Slot) (h : isAuxSlot s = false) :
    auxIds (s :: rest) = auxIds rest := by
  simp [auxIds, List.filter_cons, h]

theorem auxIds_cons_auxflag (s : Slot) (rest : List Slot) (h : isAuxSlot s = true) :
    auxIds (s :: rest) = s.id :: auxIds rest := by
  simp [auxIds, List.filter_cons, h]

theorem auxIds_append (l1 l2 : List Slot) :
    auxIds (l1 ++ l2) = auxIds l1 ++ auxIds l2 := by
  simp [auxIds, List.filter_append]

theorem markLastAux_concat (l : List Slot) (s : Slot) :
    markLastAux (l ++ [s]) = l ++ [⟨s.id, SlotKind.auxflag⟩] := by
  induction l with
  | nil => rfl
  | cons a t ih =>
    rcases t with _ | ⟨b, t'⟩ <;> simp_all [markLastAux]

theorem lastAux_concat (l : List Slot) (s : Slot) :
    lastAux (l ++ [s]) = isAuxSlot s := by
  simp [lastAux, List.getLast?_concat]

theorem lastId_concat (l : List Slot) (s : Slot) :
    lastId (l ++ [s]) = s.id := by
  simp [lastId, List.getLast?_concat]

theorem eq_auxflag_of_isAuxSlot (s : Slot) (h : isAuxSlot s = true) :
    s = ⟨s.id, SlotKind.auxflag⟩ := by
  cases s with
  | mk i k => cases k <;> simp_all [isAuxSlot]

theorem wf_fields (z n : Nat) (ring : List Slot) (aux : List AuxEntry)
    (hwf : wfCQ ⟨z, n, ring, aux⟩) :
    0 < z ∧ ring.length ≤ z ∧ ring.Pairwise (fun s t => s.id < t.id) ∧
    (∀ s ∈ ring, s.id < n) ∧ (∀ a ∈ aux, a.slot ∈ auxIds ring) ∧
    (∀ s ∈ ring, isAuxSlot s = true → ∃ a ∈ aux, a.slot = s.id) ∧
    aux.Pairwise (fun a b => a.slot ≤ b.slot) ∧
    (ring.length = z → lastAux ring = true) := hwf

theorem wf_mk (z n : Nat) (ring : List Slot) (aux : List AuxEntry)
    (h : 0 < z ∧ ring.length ≤ z ∧ ring.Pairwise (fun s t => s.id < t.id) ∧
      (∀ s ∈ ring, s.id < n) ∧ (∀ a ∈ aux, a.slot ∈ auxIds ring) ∧
      (∀ s ∈ ring, isAuxSlot s = true → ∃ a ∈ aux, a.slot = s.id) ∧
      aux.Pairwise (fun a b => a.slot ≤ b.slot) ∧
      (ring.length = z → lastAux ring = true)) : wfCQ ⟨z, n, ring, aux⟩ := h

theorem aux_slot_lt_nextId (z n : Nat) (ring : List Slot) (aux : List AuxEntry)
    (hwf : wfCQ ⟨z, n, ring, aux⟩) : ∀ a ∈ aux, a.slot < n := by
  obtain ⟨-, -, -, hlt, hpaired, -, -, -⟩ := hwf
  intro a ha
  obtain ⟨s, hs, -, hid⟩ := mem_auxIds.1 (hpaired a ha)
  exact hid ▸ hlt s hs

theorem aux_slot_le_lastId (z n : Nat) (init : List Slot) (lastS : Slot)
    (aux : List AuxEntry) (hwf : wfCQ ⟨z, n, init ++ [lastS], aux⟩) :
    ∀ a ∈ aux, a.slot ≤ lastS.id := by
  obtain ⟨-, -, hinc, -, hpaired, -, -, -⟩ := hwf
  intro a ha
  obtain ⟨s, hs, -, hid⟩ := mem_auxIds.1 (hpaired a ha)
  rcases List.mem_append.1 hs with hs | hs
  · have := ((List.pairwise_append.1 hinc).2.2) s hs lastS (by simp)
    omega
  · simp at hs
    subst hs
    omega

theorem head_aux_pair (z n : Nat) (s : Slot) (rest : List Slot) (aux : List AuxEntry)
    (hwf : wfCQ ⟨z, n, s :: rest, aux⟩) (hs : isAuxSlot s = true) :
    ∃ a arest, aux = a :: arest ∧ a.slot = s.id := by
  obtain ⟨-, -, hinc, -, hpaired, hne, hsort, -⟩ := hwf
  obtain ⟨x, hx, hxs⟩ := hne s (by simp) hs
  rcases haux : aux with _ | ⟨a, arest⟩
  · rw [haux] at hx; simp at hx
  · refine ⟨a, arest, rfl, ?_⟩
    rw [haux] at hx hpaired hsort
    have ha : a.slot ∈ auxIds (s :: rest) := hpaired a (by simp)
    rw [auxIds_cons_auxflag s rest hs] at ha
    rcases List.mem_cons.1 ha with h | h
    · exact h
    · obtain ⟨t, ht, -, htid⟩ := mem_auxIds.1 h
      have hlt : s.id < t.id := (List.pairwise_cons.1 hinc).1 t ht
      rcases List.mem_cons.1 hx with rfl | hxmem
      · exact hxs
      · have hle : a.slot ≤ x.slot := (List.pairwise_cons.1 hsort).1 x hxmem
        rw [hxs] at hle
        omega


theorem insert_aux_spec (cq : UtilCQ) (comp : Comp) (src : Nat) (hwf : wfCQ cq) :
    absCQ (ofi_cq_insert_aux cq comp src) = absCQ cq ++ [comp] ∧
    wfCQ (ofi_cq_insert_aux cq comp src) := by
  rcases cq with ⟨z, n, ring, aux⟩
  obtain ⟨hz, hlen, hinc, hlt, hpaired, hne, hsort, hfl⟩ := wf_fields z n ring aux hwf
  have hslot : ∀ a ∈ aux, a.slot < n := aux_slot_lt_nextId z n ring aux hwf
  by_cases hfull : ring.length < z
  · have hstep : ofi_cq_insert_aux ⟨z, n, ring, aux⟩ comp src =
        ⟨z, n + 1, ring ++ [⟨n, SlotKind.auxflag⟩], aux ++ [⟨comp, src, n⟩]⟩ := by
      simp [ofi_cq_insert_aux, hfull]
    rw [hstep]
    constructor
    · show absFrom (aux ++ [⟨comp, src, n⟩]) (ring ++ [⟨n, SlotKind.auxflag⟩]) =
        absFrom aux ring ++ [comp]
      rw [absFrom_append]
      have h1 : absFrom (aux ++ [⟨comp, src, n⟩]) ring = absFrom aux ring := by
        apply absFrom_congrGroups
        intro s hs _
        rw [groupFor_append]
        have hsn : s.id < n := hlt s hs
        have hemp : groupFor [⟨comp, src, n⟩] s.id = [] := by
          apply groupFor_eq_nil
          intro a ha
          simp at ha
          subst ha
          simp
          omega
        rw [hemp, List.append_nil]
      have h2 : absFrom (aux ++ [⟨comp, src, n⟩]) [⟨n, SlotKind.auxflag⟩] = [comp] := by
        show groupFor (aux ++ [⟨comp, src, n⟩]) n ++ [] = [comp]
        rw [groupFor_append, List.append_nil]
        have hemp : groupFor aux n = [] := by
          apply groupFor_eq_nil
          intro a ha
          have := hslot a ha
          omega
        rw [hemp]
        simp [groupFor]
      rw [h1, h2]
    · apply wf_mk
      refine ⟨hz, by simpa using hfull, ?_, ?_, ?_, ?_, ?_, ?_⟩
      · rw [List.pairwise_append]
        exact ⟨hinc, by simp,
          fun s hs t ht => by simp at ht; subst ht; exact hlt s hs⟩
      · intro s hs
        rcases List.mem_append.1 hs with hs | hs
        · exact Nat.lt_succ_of_lt (hlt s hs)
        · simp at hs; subst hs; exact Nat.lt_succ_self n
      · intro a ha
        rw [auxIds_append]
        rcases List.mem_append.1 ha with ha | ha
        · exact List.mem_append_left _ (hpaired a ha)
        · simp at ha
          subst ha
          apply List.mem_append_right
          simp [auxIds, isAuxSlot]
      · intro s hs hx
        rcases List.mem_append.1 hs with hs | hs
        · obtain ⟨a, ha, has⟩ := hne s hs hx
          exact ⟨a, List.mem_append_left _ ha, has⟩
        · simp at hs
          subst hs
          exact ⟨⟨comp, src, n⟩, List.mem_append_right _ (by simp), rfl⟩
      · rw [List.pairwise_append]
        refine ⟨hsort, by simp, ?_⟩
        intro a ha b hb
        simp at hb
        subst hb
        exact Nat.le_of_lt (hslot a ha)
      · intro _
        rw [lastAux_concat]
        rfl
  · -- full ring: the placeholder is the existing last slot
    have hfla : lastAux ring = true := hfl (by omega)
    have hne2 : ring ≠ [] := by
      intro h
      rw [h] at hfull
      simp at hfull
      omega
    obtain ⟨init, lastS, hring⟩ := (List.eq_nil_or_concat ring).resolve_left hne2
    rw [List.concat_eq_append] at hring
    subst hring
    rcases lastS with ⟨lid, lkind⟩
    have hlk : lkind = SlotKind.auxflag := by
      rw [lastAux_concat] at hfla
      cases lkind
      · simp [isAuxSlot] at hfla
      · rfl
    subst hlk
    have hmark : markLastAux (init ++ [⟨lid, SlotKind.auxflag⟩]) =
        init ++ [⟨lid, SlotKind.auxflag⟩] := by
      rw [markLastAux_concat]
    have hstep : ofi_cq_insert_aux ⟨z, n, init ++ [⟨lid, SlotKind.auxflag⟩], aux⟩ comp src =
        ⟨z, n, init ++ [⟨lid, SlotKind.auxflag⟩], aux ++ [⟨comp, src, lid⟩]⟩ := by
      rw [ofi_cq_insert_aux]
      simp only [if_neg hfull, hmark, lastId_concat]
    rw [hstep]
    have hlast_le : ∀ a ∈ aux, a.slot ≤ lid := by
      have := aux_slot_le_lastId z n init ⟨lid, SlotKind.auxflag⟩ aux hwf
      simpa using this
    constructor
    · show absFrom (aux ++ [⟨comp, src, lid⟩]) (init ++ [⟨lid, SlotKind.auxflag⟩]) =
        absFrom aux (init ++ [⟨lid, SlotKind.auxflag⟩]) ++ [comp]
      rw [absFrom_append, absFrom_append]
      have h1 : absFrom (aux ++ [⟨comp, src, lid⟩]) init = absFrom aux init := by
        apply absFrom_congrGroups
        intro s hs _
        rw [groupFor_append]
        have hlid : s.id < lid := by
          have := (List.pairwise_append.1 hinc).2.2 s hs ⟨lid, SlotKind.auxflag⟩ (by simp)
          simpa using this
        have hemp : groupFor [⟨comp, src, lid⟩] s.id = [] := by
          apply groupFor_eq_nil
          intro a ha
          simp at ha
          subst ha
          simp
          omega
        rw [hemp, List.append_nil]
      have h2 : absFrom (aux ++ [⟨comp, src, lid⟩]) [⟨lid, SlotKind.auxflag⟩] =
          absFrom aux [⟨lid, SlotKind.auxflag⟩] ++ [comp] := by
        show groupFor (aux ++ [⟨comp, src, lid⟩]) lid ++ [] =
          (groupFor aux lid ++ []) ++ [comp]
        rw [groupFor_append]
        simp [groupFor]
      rw [h1, h2, List.append_assoc]
    · apply wf_mk
      refine ⟨hz, hlen, hinc, hlt, ?_, ?_, ?_, fun _ => hfla⟩
      · intro a ha
        rcases List.mem_append.1 ha with ha | ha
        · exact hpaired a ha
        · simp at ha
          subst ha
          rw [auxIds_append]
          apply List.mem_append_right
          simp [auxIds, isAuxSlot]
      · intro s hs hx
        obtain ⟨a, ha, has⟩ := hne s hs hx
        exact ⟨a, List.mem_append_left _ ha, has⟩
      · rw [List.pairwise_append]
        refine ⟨hsort, by simp, ?_⟩
        intro a ha b hb
        simp at hb
        subst hb
        exact hlast_le a ha

theorem write_spec (cq : UtilCQ) (c : Comp) (src : Nat) (hwf : wfCQ cq) :
    absCQ (ofi_cq_write cq c src) =
      absCQ cq ++ [⟨c.op_context, c.flags, c.len, c.buf, c.data, c.tag, 0⟩] ∧
    wfCQ (ofi_cq_write cq c src) := by
  rcases cq with ⟨z, n, ring, aux⟩
  obtain ⟨hz, hlen, hinc, hlt, hpaired, hne, hsort, hfl⟩ := wf_fields z n ring aux hwf
  by_cases hdir : ring.length + 1 < z
  · have hstep : ofi_cq_write ⟨z, n, ring, aux⟩ c src =
        ⟨z, n + 1,
         ring ++ [⟨n, SlotKind.real ⟨c.op_context, c.flags, c.len, c.buf, c.data, c.tag, 0⟩ src⟩],
         aux⟩ := by
      simp [ofi_cq_write, hdir]
    rw [hstep]
    constructor
    · show absFrom aux (ring ++
          [⟨n, SlotKind.real ⟨c.op_context, c.flags, c.len, c.buf, c.data, c.tag, 0⟩ src⟩]) =
        absFrom aux ring ++ [⟨c.op_context, c.flags, c.len, c.buf, c.data, c.tag, 0⟩]
      rw [absFrom_append]
      rfl
    · apply wf_mk
      refine ⟨hz, by simp; omega, ?_, ?_, ?_, ?_, hsort, ?_⟩
      · rw [List.pairwise_append]
        exact ⟨hinc, by simp,
          fun s hs t ht => by simp at ht; subst ht; exact hlt s hs⟩
      · intro s hs
        rcases List.mem_append.1 hs with hs | hs
        · exact Nat.lt_succ_of_lt (hlt s hs)
        · simp at hs; subst hs; exact Nat.lt_succ_self n
      · intro a ha
        rw [auxIds_append]
        exact List.mem_append_left _ (hpaired a ha)
      · intro s hs hx
        rcases List.mem_append.1 hs with hs | hs
        · exact hne s hs hx
        · simp at hs
          subst hs
          simp [isAuxSlot] at hx
      · intro hcontra
        rw [List.length_append] at hcontra
        simp at hcontra
        omega
  · have hstep : ofi_cq_write ⟨z, n, ring, aux⟩ c src =
        ofi_cq_insert_aux ⟨z, n, ring, aux⟩
          ⟨c.op_context, c.flags, c.len, c.buf, c.data, c.tag, 0⟩ src := by
      simp [ofi_cq_write, hdir, ofi_cq_write_overflow]
    rw [hstep]
    exact insert_aux_spec _ _ _ hwf

theorem writeList_spec (ws : List (Comp × Nat)) :
    ∀ cq : UtilCQ, wfCQ cq →
      absCQ (cqWriteList cq ws) = absCQ cq ++
        ws.map (fun p => (⟨p.1.op_context, p.1.flags, p.1.len, p.1.buf, p.1.data,
          p.1.tag, 0⟩ : Comp)) ∧
      wfCQ (cqWriteList cq ws) := by
  induction ws with
  | nil =>
    intro cq h
    exact ⟨by simp [cqWriteList], h⟩
  | cons p rest ih =>
    intro cq h
    obtain ⟨habs, hwf'⟩ := write_spec cq p.1 p.2 h
    have hrec := ih (ofi_cq_write cq p.1 p.2) hwf'
    constructor
    · show absCQ (cqWriteList (ofi_cq_write cq p.1 p.2) rest) = _
      rw [hrec.1, habs]
      simp
    · exact hrec.2

theorem wf_tail_real (z n : Nat) (s : Slot) (rest : List Slot) (aux : List AuxEntry)
    (hwf : wfCQ ⟨z, n, s :: rest, aux⟩) (hs : isAuxSlot s = false) :
    wfCQ ⟨z, n, rest, aux⟩ := by
  obtain ⟨hz, hlen, hinc, hlt, hpaired, hne, hsort, -⟩ :=
    wf_fields z n (s :: rest) aux hwf
  apply wf_mk
  refine ⟨hz, ?_, (List.pairwise_cons.1 hinc).2, ?_, ?_, ?_, hsort, ?_⟩
  · simp at hlen; omega
  · intro t ht; exact hlt t (List.mem_cons_of_mem _ ht)
  · intro a ha
    have := hpaired a ha
    rwa [auxIds_cons_real s rest hs] at this
  · intro t ht hx; exact hne t (List.mem_cons_of_mem _ ht) hx
  · intro hcontra
    simp at hlen
    omega

theorem slots_ne_of_sorted (sid : Nat) (b : AuxEntry) (t : List AuxEntry)
    (hsort : (b :: t).Pairwise (fun x y => x.slot ≤ y.slot))
    (hble : sid ≤ b.slot) (hbne : b.slot ≠ sid) :
    ∀ x ∈ b :: t, x.slot ≠ sid := by
  intro x hx
  rcases List.mem_cons.1 hx with rfl | hx
  · exact hbne
  · have := (List.pairwise_cons.1 hsort).1 x hx
    omega

theorem consume_drop_spec (z n : Nat) (s : Slot) (rest : List Slot) (a : AuxEntry)
    (arest : List AuxEntry) (hwf : wfCQ ⟨z, n, s :: rest, a :: arest⟩)
    (hs : isAuxSlot s = true) (ha : a.slot = s.id)
    (hnomore : ∀ x ∈ arest, x.slot ≠ s.id) :
    absCQ ⟨z, n, s :: rest, a :: arest⟩ = a.comp :: absCQ ⟨z, n, rest, arest⟩ ∧
    wfCQ ⟨z, n, rest, arest⟩ := by
  obtain ⟨hz, hlen, hinc, hlt, hpaired, hne, hsort, -⟩ :=
    wf_fields z n (s :: rest) (a :: arest) hwf
  have hrest_gt : ∀ t ∈ rest, s.id < t.id := (List.pairwise_cons.1 hinc).1
  constructor
  · show absFrom (a :: arest) (s :: rest) = a.comp :: absFrom arest rest
    have hk : s.kind = SlotKind.auxflag := by
      rcases s with ⟨i, k⟩
      cases k
      · simp [isAuxSlot] at hs
      · rfl
    have hgroup : groupFor (a :: arest) s.id = [a.comp] := by
      rw [groupFor_cons, if_pos ha, groupFor_eq_nil arest s.id hnomore]
    have htail : absFrom (a :: arest) rest = absFrom arest rest := by
      apply absFrom_congrGroups
      intro t ht _
      rw [groupFor_cons, if_neg]
      have := hrest_gt t ht
      omega
    simp [absFrom, hk, hgroup, htail]
  · apply wf_mk
    refine ⟨hz, ?_, (List.pairwise_cons.1 hinc).2, ?_, ?_, ?_,
      (List.pairwise_cons.1 hsort).2, ?_⟩
    · simp at hlen; omega
    · intro t ht; exact hlt t (List.mem_cons_of_mem _ ht)
    · intro x hx
      have hmem := hpaired x (List.mem_cons_of_mem _ hx)
      rw [auxIds_cons_auxflag s rest hs] at hmem
      rcases List.mem_cons.1 hmem with hbad | hgood
      · exact absurd hbad (hnomore x hx)
      · exact hgood
    · intro t ht hx
      obtain ⟨y, hy, hys⟩ := hne t (List.mem_cons_of_mem _ ht) hx
      rcases List.mem_cons.1 hy with rfl | hy
      · exfalso
        have := hrest_gt t ht
        omega
      · exact ⟨y, hy, hys⟩
    · intro hcontra
      simp at hlen
      omega

theorem consume_keep_spec (z n : Nat) (s : Slot) (rest : List Slot) (a b : AuxEntry)
    (t : List AuxEntry) (hwf : wfCQ ⟨z, n, s :: rest, a :: b :: t⟩)
    (hs : isAuxSlot s = true) (ha : a.slot = s.id) (hb : b.slot = s.id) :
    absCQ ⟨z, n, s :: rest, a :: b :: t⟩ =
      a.comp :: absCQ ⟨z, n, s :: rest, b :: t⟩ ∧
    wfCQ ⟨z, n, s :: rest, b :: t⟩ := by
  obtain ⟨hz, hlen, hinc, hlt, hpaired, hne, hsort, hfl⟩ :=
    wf_fields z n (s :: rest) (a :: b :: t) hwf
  have hrest_gt : ∀ u ∈ rest, s.id < u.id := (List.pairwise_cons.1 hinc).1
  constructor
  · show absFrom (a :: b :: t) (s :: rest) = a.comp :: absFrom (b :: t) (s :: rest)
    have hk : s.kind = SlotKind.auxflag := by
      rcases s with ⟨i, k⟩
      cases k
      · simp [isAuxSlot] at hs
      · rfl
    have htail : absFrom (a :: b :: t) rest = absFrom (b :: t) rest := by
      apply absFrom_congrGroups
      intro u hu _
      rw [groupFor_cons, if_neg]
      have := hrest_gt u hu
      omega
    have hgroup : groupFor (a :: b :: t) s.id = a.comp :: groupFor (b :: t) s.id := by
      rw [groupFor_cons, if_pos ha]
    simp [absFrom, hk, hgroup, htail]
  · apply wf_mk
    refine ⟨hz, hlen, hinc, hlt, ?_, ?_, (List.pairwise_cons.1 hsort).2, hfl⟩
    · intro x hx; exact hpaired x (List.mem_cons_of_mem _ hx)
    · intro u hu hx
      obtain ⟨y, hy, hys⟩ := hne u hu hx
      rcases List.mem_cons.1 hy with rfl | hy
      · rcases List.mem_cons.1 hu with rfl | hu2
        · exact ⟨b, by simp, by rw [hb, ← hys, ha]⟩
        · exfalso
          have := hrest_gt u hu2
          omega
      · exact ⟨y, hy, hys⟩

theorem readLoop_spec : ∀ (k : Nat) (cq : UtilCQ), wfCQ cq →
    absCQ cq = (readLoop k cq).out ++ absCQ (readLoop k cq).cq ∧
    wfCQ (readLoop k cq).cq ∧
    ((readLoop k cq).hitErr = true →
      ∃ s rest a arest, (readLoop k cq).cq.ring = s :: rest ∧ isAuxSlot s = true ∧
        (readLoop k cq).cq.aux = a :: arest ∧ a.comp.err ≠ 0 ∧ a.slot = s.id) := by
  intro k
  induction k with
  | zero =>
    intro cq hwf
    exact ⟨by simp [readLoop], hwf, by simp [readLoop]⟩
  | succ k ih =>
    intro cq hwf
    rcases cq with ⟨z, n, ring, aux⟩
    rcases ring with _ | ⟨⟨sid, skind⟩, rest⟩
    · exact ⟨by simp [readLoop], hwf, by simp [readLoop]⟩
    cases skind with
    | real c src =>
      have hwf1 : wfCQ ⟨z, n, rest, aux⟩ :=
        wf_tail_real z n ⟨sid, SlotKind.real c src⟩ rest aux hwf rfl
      obtain ⟨habs, hwfr, herrinfo⟩ := ih ⟨z, n, rest, aux⟩ hwf1
      have hstep : readLoop (k + 1) ⟨z, n, ⟨sid, SlotKind.real c src⟩ :: rest, aux⟩ =
          ⟨c :: (readLoop k ⟨z, n, rest, aux⟩).out,
           (readLoop k ⟨z, n, rest, aux⟩).cq,
           (readLoop k ⟨z, n, rest, aux⟩).hitErr⟩ := rfl
      rw [hstep]
      refine ⟨?_, hwfr, herrinfo⟩
      have hhead : absCQ ⟨z, n, ⟨sid, SlotKind.real c src⟩ :: rest, aux⟩ =
          c :: absCQ ⟨z, n, rest, aux⟩ := rfl
      rw [hhead, habs]
      rfl
    | auxflag =>
      obtain ⟨a, arest, haux, haslot⟩ :=
        head_aux_pair z n ⟨sid, SlotKind.auxflag⟩ rest aux hwf rfl
      subst haux
      by_cases herr : a.comp.err = 0
      · rcases arest with _ | ⟨b, t⟩
        · -- last node of this placeholder: the slot is discarded
          obtain ⟨habs1, hwf1⟩ := consume_drop_spec z n ⟨sid, SlotKind.auxflag⟩ rest a []
            hwf rfl haslot (by simp)
          obtain ⟨habs, hwfr, herrinfo⟩ := ih ⟨z, n, rest, []⟩ hwf1
          have hstep : readLoop (k + 1) ⟨z, n, ⟨sid, SlotKind.auxflag⟩ :: rest, [a]⟩ =
              ⟨a.comp :: (readLoop k ⟨z, n, rest, []⟩).out,
               (readLoop k ⟨z, n, rest, []⟩).cq,
               (readLoop k ⟨z, n, rest, []⟩).hitErr⟩ := by
            simp [readLoop, herr]
          rw [hstep]
          refine ⟨?_, hwfr, herrinfo⟩
          rw [habs1, habs]
          rfl
        · by_cases hb : b.slot = sid
          · -- next node pairs with the same slot: the slot stays
            obtain ⟨habs1, hwf1⟩ := consume_keep_spec z n ⟨sid, SlotKind.auxflag⟩ rest a b t
              hwf rfl haslot hb
            obtain ⟨habs, hwfr, herrinfo⟩ := ih ⟨z, n, ⟨sid, SlotKind.auxflag⟩ :: rest, b :: t⟩ hwf1
            have hstep : readLoop (k + 1)
                ⟨z, n, ⟨sid, SlotKind.auxflag⟩ :: rest, a :: b :: t⟩ =
                ⟨a.comp :: (readLoop k ⟨z, n, ⟨sid, SlotKind.auxflag⟩ :: rest, b :: t⟩).out,
                 (readLoop k ⟨z, n, ⟨sid, SlotKind.auxflag⟩ :: rest, b :: t⟩).cq,
                 (readLoop k ⟨z, n, ⟨sid, SlotKind.auxflag⟩ :: rest, b :: t⟩).hitErr⟩ := by
              simp [readLoop, herr, hb]
            rw [hstep]
            refine ⟨?_, hwfr, herrinfo⟩
            rw [habs1, habs]
            rfl
          · -- next node pairs further on: the slot is discarded
            have hsort : (a :: b :: t).Pairwise (fun x y => x.slot ≤ y.slot) :=
              (wf_fields z n _ _ hwf).2.2.2.2.2.2.1
            have hble : sid ≤ b.slot := by
              have h1 := (List.pairwise_cons.1 hsort).1 b (by simp)
              have h2 : a.slot = sid := haslot
              omega
            have hnomore : ∀ x ∈ b :: t, x.slot ≠ sid :=
              slots_ne_of_sorted sid b t (List.pairwise_cons.1 hsort).2 hble hb
            obtain ⟨habs1, hwf1⟩ := consume_drop_spec z n ⟨sid, SlotKind.auxflag⟩ rest a (b :: t)
              hwf rfl haslot hnomore
            obtain ⟨habs, hwfr, herrinfo⟩ := ih ⟨z, n, rest, b :: t⟩ hwf1
            have hstep : readLoop (k + 1)
                ⟨z, n, ⟨sid, SlotKind.auxflag⟩ :: rest, a :: b :: t⟩ =
                ⟨a.comp :: (readLoop k ⟨z, n, rest, b :: t⟩).out,
                 (readLoop k ⟨z, n, rest, b :: t⟩).cq,
                 (readLoop k ⟨z, n, rest, b :: t⟩).hitErr⟩ := by
              simp [readLoop, herr, hb]
            rw [hstep]
            refine ⟨?_, hwfr, herrinfo⟩
            rw [habs1, habs]
            rfl
      · have hstep : readLoop (k + 1) ⟨z, n, ⟨sid, SlotKind.auxflag⟩ :: rest, a :: arest⟩ =
            ⟨[], ⟨z, n, ⟨sid, SlotKind.auxflag⟩ :: rest, a :: arest⟩, true⟩ := by
          simp [readLoop, herr]
        rw [hstep]
        exact ⟨by simp, hwf,
          fun _ => ⟨⟨sid, SlotKind.auxflag⟩, rest, a, arest, rfl, rfl, rfl, herr, haslot⟩⟩

theorem wf_paired (cq : UtilCQ) (h : wfCQ cq) :
    ∀ a ∈ cq.aux, a.slot ∈ auxIds cq.ring := by
  rcases cq with ⟨z, n, ring, aux⟩
  exact (wf_fields z n ring aux h).2.2.2.2.1

/-- C3: writes (direct ring writes and overflow insertions alike)
append to the FIFO abstraction of the hybrid ring plus auxiliary
structure, and ofi_cq_readfrom returns a prefix of that abstraction
leaving exactly the remainder behind, so completions are read in the
order they were written, auxiliary entries drained in insertion order;
well-formedness is preserved, and in particular every remaining
auxiliary node still pairs with an auxiliary-flagged ring slot, so a
flagged slot is only discarded together with its paired nodes. -/
theorem claim_C3 (cq : UtilCQ) (ws : List (Comp × Nat)) (count : Nat)
    (hwf : wfCQ cq) :
    (absCQ (cqWriteList cq ws) = absCQ cq ++
      ws.map (fun p => (⟨p.1.op_context, p.1.flags, p.1.len, p.1.buf, p.1.data,
        p.1.tag, 0⟩ : Comp)) ∧
     wfCQ (cqWriteList cq ws)) ∧
    absCQ cq = (ofi_cq_readfrom cq count).out ++ absCQ (ofi_cq_readfrom cq count).cq ∧
    wfCQ (ofi_cq_readfrom cq count).cq ∧
    (∀ a ∈ (ofi_cq_readfrom cq count).cq.aux,
      a.slot ∈ auxIds (ofi_cq_readfrom cq count).cq.ring) := by
  obtain ⟨hw1, hw2⟩ := writeList_spec ws cq hwf
  refine ⟨⟨hw1, hw2⟩, ?_⟩
  by_cases hemp : cq.ring.isEmpty
  · have hstep : ofi_cq_readfrom cq count = ⟨-FI_EAGAIN, [], cq⟩ := by
      simp [ofi_cq_readfrom, hemp]
    rw [hstep]
    exact ⟨rfl, hwf, wf_paired cq hwf⟩
  · obtain ⟨habs, hwfr, -⟩ := readLoop_spec (min count cq.ring.length) cq hwf
    have hout : (ofi_cq_readfrom cq count).out =
        (readLoop (min count cq.ring.length) cq).out := by
      simp [ofi_cq_readfrom, hemp]
    have hcq : (ofi_cq_readfrom cq count).cq =
        (readLoop (min count cq.ring.length) cq).cq := by
      simp [ofi_cq_readfrom, hemp]
    rw [hout, hcq]
    exact ⟨habs, hwfr, wf_paired _ hwfr⟩

theorem claim_C3_witness :
    (absCQ (cqWriteList ⟨2, 0, [], []⟩
        [(⟨1, 0, 0, 0, 0, 0, 0⟩, 0), (⟨2, 0, 0, 0, 0, 0, 0⟩, 0), (⟨3, 0, 0, 0, 0, 0, 0⟩, 0)]) =
      absCQ ⟨2, 0, [], []⟩ ++
        ([(⟨1, 0, 0, 0, 0, 0, 0⟩, 0), (⟨2, 0, 0, 0, 0, 0, 0⟩, 0),
          (⟨3, 0, 0, 0, 0, 0, 0⟩, 0)] : List (Comp × Nat)).map
          (fun p => (⟨p.1.op_context, p.1.flags, p.1.len, p.1.buf, p.1.data,
            p.1.tag, 0⟩ : Comp)) ∧
     wfCQ (cqWriteList ⟨2, 0, [], []⟩
        [(⟨1, 0, 0, 0, 0, 0, 0⟩, 0), (⟨2, 0, 0, 0, 0, 0, 0⟩, 0), (⟨3, 0, 0, 0, 0, 0, 0⟩, 0)])) ∧
    absCQ ⟨2, 0, [], []⟩ =
      (ofi_cq_readfrom ⟨2, 0, [], []⟩ 5).out ++
        absCQ (ofi_cq_readfrom ⟨2, 0, [], []⟩ 5).cq ∧
    wfCQ (ofi_cq_readfrom ⟨2, 0, [], []⟩ 5).cq ∧
    (∀ a ∈ (ofi_cq_readfrom ⟨2, 0, [], []⟩ 5).cq.aux,
      a.slot ∈ auxIds (ofi_cq_readfrom ⟨2, 0, [], []⟩ 5).cq.ring) :=
  claim_C3 ⟨2, 0, [], []⟩
    [(⟨1, 0, 0, 0, 0, 0, 0⟩, 0), (⟨2, 0, 0, 0, 0, 0, 0⟩, 0), (⟨3, 0, 0, 0, 0, 0, 0⟩, 0)] 5
    (by decide)

/-- C8: ofi_cq_readerr returns and consumes the oldest auxiliary
entry exactly when the queue head slot is auxiliary-flagged and its
paired node carries a nonzero error; in every other case it returns
-FI_EAGAIN and leaves the queue untouched. -/
theorem claim_C8 (cq : UtilCQ) (hwf : wfCQ cq) :
    (readErrReady cq = true →
      (ofi_cq_readerr cq).ret = 1 ∧
      ∃ a arest, cq.aux = a :: arest ∧ a.comp.err ≠ 0 ∧
        (ofi_cq_readerr cq).out = some a.comp ∧
        (ofi_cq_readerr cq).cq.aux = arest ∧
        absCQ cq = a.comp :: absCQ (ofi_cq_readerr cq).cq ∧
        wfCQ (ofi_cq_readerr cq).cq) ∧
    (readErrReady cq = false → ofi_cq_readerr cq = ⟨-FI_EAGAIN, none, cq⟩) := by
  rcases cq with ⟨z, n, ring, aux⟩
  rcases ring with _ | ⟨⟨sid, skind⟩, rest⟩
  · exact ⟨fun h => by simp [readErrReady] at h, fun _ => rfl⟩
  cases skind with
  | real c src =>
    exact ⟨fun h => by simp [readErrReady] at h, fun _ => rfl⟩
  | auxflag =>
    obtain ⟨a, arest, haux, haslot⟩ :=
      head_aux_pair z n ⟨sid, SlotKind.auxflag⟩ rest aux hwf rfl
    subst haux
    by_cases herr : a.comp.err = 0
    · refine ⟨fun h => ?_, fun _ => ?_⟩
      · simp [readErrReady, herr] at h
      · simp [ofi_cq_readerr, herr]
    · refine ⟨fun _ => ?_, fun h => ?_⟩
      swap
      · simp [readErrReady, herr] at h
      rcases arest with _ | ⟨b, t⟩
      · obtain ⟨habs1, hwf1⟩ := consume_drop_spec z n ⟨sid, SlotKind.auxflag⟩ rest a []
          hwf rfl haslot (by simp)
        have hstep : ofi_cq_readerr ⟨z, n, ⟨sid, SlotKind.auxflag⟩ :: rest, [a]⟩ =
            ⟨1, some a.comp, ⟨z, n, rest, []⟩⟩ := by
          simp [ofi_cq_readerr, herr]
        rw [hstep]
        exact ⟨rfl, a, [], rfl, herr, rfl, rfl, habs1, hwf1⟩
      · by_cases hb : b.slot = sid
        · obtain ⟨habs1, hwf1⟩ := consume_keep_spec z n ⟨sid, SlotKind.auxflag⟩ rest a b t
            hwf rfl haslot hb
          have hstep : ofi_cq_readerr ⟨z, n, ⟨sid, SlotKind.auxflag⟩ :: rest, a :: b :: t⟩ =
              ⟨1, some a.comp, ⟨z, n, ⟨sid, SlotKind.auxflag⟩ :: rest, b :: t⟩⟩ := by
            simp [ofi_cq_readerr, herr, hb]
          rw [hstep]
          exact ⟨rfl, a, b :: t, rfl, herr, rfl, rfl, habs1, hwf1⟩
        · have hsort : (a :: b :: t).Pairwise (fun x y => x.slot ≤ y.slot) :=
            (wf_fields z n _ _ hwf).2.2.2.2.2.2.1
          have hble : sid ≤ b.slot := by
            have h1 := (List.pairwise_cons.1 hsort).1 b (by simp)
            have h2 : a.slot = sid := haslot
            omega
          have hnomore : ∀ x ∈ b :: t, x.slot ≠ sid :=
            slots_ne_of_sorted sid b t (List.pairwise_cons.1 hsort).2 hble hb
          obtain ⟨habs1, hwf1⟩ := consume_drop_spec z n ⟨sid, SlotKind.auxflag⟩ rest a (b :: t)
            hwf rfl haslot hnomore
          have hstep : ofi_cq_readerr ⟨z, n, ⟨sid, SlotKind.auxflag⟩ :: rest, a :: b :: t⟩ =
              ⟨1, some a.comp, ⟨z, n, rest, b :: t⟩⟩ := by
            simp [ofi_cq_readerr, herr, hb]
          rw [hstep]
          exact ⟨rfl, a, b :: t, rfl, herr, rfl, rfl, habs1, hwf1⟩

theorem claim_C8_witness :
    readErrReady ⟨2, 1, [⟨0, SlotKind.auxflag⟩], [⟨⟨9, 0, 0, 0, 0, 0, 5⟩, 0, 0⟩]⟩ = true ∧
    (ofi_cq_readerr ⟨2, 1, [⟨0, SlotKind.auxflag⟩], [⟨⟨9, 0, 0, 0, 0, 0, 5⟩, 0, 0⟩]⟩).ret = 1 := by
  have h := (claim_C8 ⟨2, 1, [⟨0, SlotKind.auxflag⟩], [⟨⟨9, 0, 0, 0, 0, 0, 5⟩, 0, 0⟩]⟩
    (by decide)).1 (by decide)
  exact ⟨by decide, h.1⟩

/-- C9: when the readfrom loop reaches an auxiliary node with a
nonzero error it stops: with nothing copied yet the call returns
-FI_EAVAIL, otherwise it returns the number of entries copied; the
error node is left unconsumed, still paired with the auxiliary head
slot of the queue, and a subsequent ofi_cq_readerr call consumes
it. -/
theorem claim_C9 (cq : UtilCQ) (count : Nat) (hwf : wfCQ cq)
    (herr : (readLoop (min count cq.ring.length) cq).hitErr = true) :
    ((ofi_cq_readfrom cq count).out = [] →
      (ofi_cq_readfrom cq count).ret = -FI_EAVAIL) ∧
    ((ofi_cq_readfrom cq count).out ≠ [] →
      (ofi_cq_readfrom cq count).ret = ((ofi_cq_readfrom cq count).out.length : Int)) ∧
    (∃ s rest a arest, (ofi_cq_readfrom cq count).cq.ring = s :: rest ∧
      isAuxSlot s = true ∧ (ofi_cq_readfrom cq count).cq.aux = a :: arest ∧
      a.comp.err ≠ 0 ∧ a.slot = s.id) ∧
    (ofi_cq_readerr (ofi_cq_readfrom cq count).cq).ret = 1 := by
  have hemp : cq.ring.isEmpty = false := by
    cases hh : cq.ring with
    | nil =>
      rw [hh] at herr
      simp [readLoop] at herr
    | cons a l => simp [hh]
  obtain ⟨-, -, herrinfo⟩ := readLoop_spec (min count cq.ring.length) cq hwf
  obtain ⟨s, rest, a, arest, hring, hs, haux, haerr, haslot⟩ := herrinfo herr
  have hout : (ofi_cq_readfrom cq count).out =
      (readLoop (min count cq.ring.length) cq).out := by
    simp [ofi_cq_readfrom, hemp]
  have hcq : (ofi_cq_readfrom cq count).cq =
      (readLoop (min count cq.ring.length) cq).cq := by
    simp [ofi_cq_readfrom, hemp]
  have hret : (ofi_cq_readfrom cq count).ret =
      if (readLoop (min count cq.ring.length) cq).out.isEmpty then -FI_EAVAIL
      else ((readLoop (min count cq.ring.length) cq).out.length : Int) := by
    simp [ofi_cq_readfrom, hemp, herr]
  have hreaderr : (ofi_cq_readerr (readLoop (min count cq.ring.length) cq).cq).ret = 1 := by
    rcases s with ⟨sid, skind⟩
    have hsk : skind = SlotKind.auxflag := by
      cases skind
      · simp [isAuxSlot] at hs
      · rfl
    subst hsk
    have heta : (readLoop (min count cq.ring.length) cq).cq =
        ⟨(readLoop (min count cq.ring.length) cq).cq.size,
         (readLoop (min count cq.ring.length) cq).cq.nextId,
         ⟨sid, SlotKind.auxflag⟩ :: rest, a :: arest⟩ := by
      rw [← hring, ← haux]
    rw [heta]
    simp [ofi_cq_readerr, haerr]
  refine ⟨?_, ?_, ⟨s, rest, a, arest, by rw [hcq]; exact hring, hs,
    by rw [hcq]; exact haux, haerr, haslot⟩, by rw [hcq]; exact hreaderr⟩
  · intro h
    rw [hout] at h
    rw [hret, h]
    simp
  · intro h
    rw [hout] at h
    rw [hret, hout]
    have : (readLoop (min count cq.ring.length) cq).out.isEmpty = false := by
      rcases hcase : (readLoop (min count cq.ring.length) cq).out with _ | _
      · exact absurd hcase h
      · rfl
    rw [this]
    simp

theorem claim_C9_witness :
    wfCQ ⟨4, 2, [⟨0, SlotKind.real ⟨1, 0, 0, 0, 0, 0, 0⟩ 0⟩, ⟨1, SlotKind.auxflag⟩],
      [⟨⟨9, 0, 0, 0, 0, 0, 5⟩, 0, 1⟩]⟩ ∧
    (ofi_cq_readfrom ⟨4, 2, [⟨0, SlotKind.real ⟨1, 0, 0, 0, 0, 0, 0⟩ 0⟩, ⟨1, SlotKind.auxflag⟩],
      [⟨⟨9, 0, 0, 0, 0, 0, 5⟩, 0, 1⟩]⟩ 10).ret =
      ((ofi_cq_readfrom ⟨4, 2, [⟨0, SlotKind.real ⟨1, 0, 0, 0, 0, 0, 0⟩ 0⟩, ⟨1, SlotKind.auxflag⟩],
        [⟨⟨9, 0, 0, 0, 0, 0, 5⟩, 0, 1⟩]⟩ 10).out.length : Int) ∧
    (ofi_cq_readerr (ofi_cq_readfrom ⟨4, 2,
      [⟨0, SlotKind.real ⟨1, 0, 0, 0, 0, 0, 0⟩ 0⟩, ⟨1, SlotKind.auxflag⟩],
      [⟨⟨9, 0, 0, 0, 0, 0, 5⟩, 0, 1⟩]⟩ 10).cq).ret = 1 := by
  have h := claim_C9 ⟨4, 2, [⟨0, SlotKind.real ⟨1, 0, 0, 0, 0, 0, 0⟩ 0⟩, ⟨1, SlotKind.auxflag⟩],
    [⟨⟨9, 0, 0, 0, 0, 0, 5⟩, 0, 1⟩]⟩ 10 (by decide) (by decide)
  exact ⟨by decide, h.2.1 (by decide), h.2.2.2⟩

theorem claim_C4_witness :
    (4 : Nat) ≤ 10 ∧
    ((runMOps 4 ⟨10, 0, false⟩ [MOp.splitMatch 8, MOp.consumerDone]).released = true ↔
      rxr_msg_multi_recv_buffer_complete 4
        (runMOps 4 ⟨10, 0, false⟩ [MOp.splitMatch 8, MOp.consumerDone]) = true) :=
  ⟨by decide, (claim_C4 4 [MOp.splitMatch 8, MOp.consumerDone] 10 (by decide)).1⟩

theorem getList_setList_eq (s : BuddyState) (k : Nat) (v : List Nat)
    (h : k < s.lists.length) : getList (setList s k v) k = v := by
  show (s.lists.set k v).getD k [] = v
  rw [List.getD_eq_getElem _ _ (by simpa using h)]
  rw [List.getElem_set_self]

theorem getList_setList_ne (s : BuddyState) (j k : Nat) (v : List Nat) (h : k ≠ j) :
    getList (setList s j v) k = getList s k := by
  show (s.lists.set j v).getD k [] = s.lists.getD k []
  rcases Nat.lt_or_ge k s.lists.length with hk | hk
  · rw [List.getD_eq_getElem _ _ (by simpa using hk), List.getD_eq_getElem _ _ hk]
    exact List.getElem_set_ne (by omega) _
  · rw [List.getD_eq_default _ _ (by simpa using hk), List.getD_eq_default _ _ hk]

theorem dropLast_append_getLastD (l : List Nat) (h : l ≠ []) :
    l.dropLast ++ [l.getLastD 0] = l := by
  induction l with
  | nil => simp at h
  | cons a t ih =>
    rcases t with _ | ⟨b, t2⟩
    · simp
    · have h2 := ih (by simp)
      rw [List.getLastD_cons] at h2
      rw [List.getLastD_cons, List.getLastD_cons]
      simp only [List.dropLast_cons₂, List.cons_append]
      rw [h2]

theorem lists_length_pos_of_getList_ne (s : BuddyState) (k : Nat)
    (h : getList s k ≠ []) : k < s.lists.length := by
  by_contra hk
  apply h
  show s.lists.getD k [] = []
  exact List.getD_eq_default _ _ (by omega)

theorem gnix_buddy_alloc_direct (s : BuddyState) (l : Nat)
    (h1 : ¬(l = 0 ∨ s.max < l))
    (h3 : (getList s (allocClass l)).isEmpty = false) :
    gnix_buddy_alloc s l = BuddyAllocResult.ok
      (allocTarget s (allocClass l))
      (setBit (setList s (allocClass l)
        (if allocClass l % 2 = 1 then (getList s (allocClass l)).dropLast
         else (getList s (allocClass l)).drop 1))
        (bIdx s (allocTarget s (allocClass l)) (gnixBlockSize l MIN_BLOCK_SIZE))) := by
  unfold gnix_buddy_alloc gnixAllocFinish allocClass allocTarget at *
  rw [if_neg h1, if_neg (by simp [h3])]
  rfl

theorem gnix_buddy_free_nocoalesce (s : BuddyState) (ptr l : Nat)
    (h1 : ¬(l = 0 ∨ s.max < l ∨ s.len ≤ ptr))
    (h6 : ¬(gnixBlockSize l MIN_BLOCK_SIZE < s.max ∧
      bIdx s (gnixBuddy ptr (gnixBlockSize l MIN_BLOCK_SIZE))
          (gnixBlockSize l MIN_BLOCK_SIZE) ∉
        (clearBit s (bIdx s ptr (gnixBlockSize l MIN_BLOCK_SIZE))).bitmap)) :
    gnix_buddy_free s ptr l = BuddyFreeResult.ok
      (setList (clearBit s (bIdx s ptr (gnixBlockSize l MIN_BLOCK_SIZE)))
        (gnixListIndex (gnixBlockSize l MIN_BLOCK_SIZE) MIN_BLOCK_SIZE)
        (getList (clearBit s (bIdx s ptr (gnixBlockSize l MIN_BLOCK_SIZE)))
          (gnixListIndex (gnixBlockSize l MIN_BLOCK_SIZE) MIN_BLOCK_SIZE) ++ [ptr])) := by
  unfold gnix_buddy_free
  rw [if_neg h1]
  have hco : coalesceLoop (buddyNlists (clearBit s (bIdx s ptr (gnixBlockSize l MIN_BLOCK_SIZE))))
      (clearBit s (bIdx s ptr (gnixBlockSize l MIN_BLOCK_SIZE))) ptr
      (gnixBlockSize l MIN_BLOCK_SIZE) =
      (ptr, gnixBlockSize l MIN_BLOCK_SIZE,
       clearBit s (bIdx s ptr (gnixBlockSize l MIN_BLOCK_SIZE))) := by
    show coalesceLoop (gnixLog2 ((clearBit s (bIdx s ptr (gnixBlockSize l MIN_BLOCK_SIZE))).max /
      MIN_BLOCK_SIZE) + 1) _ _ _ = _
    rw [coalesceLoop]
    rw [if_neg]
    exact h6
  simp only [hco]

/-- C5 counterexample: over the freshly created allocator managing 64
bytes with 64-byte maximum blocks, one 16-byte alloc (which splits the
top block) followed immediately by its free does not restore the free
lists or the bitmap: the bits set on the split-off free halves stop
coalescing, and the freed block reenters at a different position, so
the state after the round trip differs from the state before. -/
theorem claim_C5_counterexample :
    gnix_buddy_allocator_create 64 64 = some ⟨64, 64, [[], [], [0]], ∅⟩ ∧
    allocFreeRound ⟨64, 64, [[], [], [0]], ∅⟩ 16 =
      some ⟨64, 64, [[], [32, 0], []], {5, 6}⟩ ∧
    (⟨64, 64, [[], [32, 0], []], ({5, 6} : Finset Nat)⟩ : BuddyState) ≠
      ⟨64, 64, [[], [], [0]], ∅⟩ := by decide

/-- C5 amended: when the allocation is served directly from its size
class (list nonempty), the removed block's bit is clear, and the
immediately following free performs no coalescing (the block is
max-sized or its buddy bit is set), the round trip restores the bitmap
exactly and every free list up to order (the block reenters at the
tail of its class list); with splits or coalescing involved even that
fails, as the counterexample shows. -/
theorem claim_C5 (s : BuddyState) (l : Nat)
    (h1 : 0 < l) (h2 : l ≤ s.max)
    (h3 : getList s (allocClass l) ≠ [])
    (h4 : allocTarget s (allocClass l) < s.len)
    (h5 : bIdx s (allocTarget s (allocClass l)) (gnixBlockSize l MIN_BLOCK_SIZE) ∉ s.bitmap)
    (h6 : gnixBlockSize l MIN_BLOCK_SIZE = s.max ∨
      bIdx s (gnixBuddy (allocTarget s (allocClass l)) (gnixBlockSize l MIN_BLOCK_SIZE))
        (gnixBlockSize l MIN_BLOCK_SIZE) ∈ s.bitmap) :
    (allocFreeRound s l).isSome = true ∧
    ∀ s2, allocFreeRound s l = some s2 →
      s2.bitmap = s.bitmap ∧ s2.len = s.len ∧ s2.max = s.max ∧
      ∀ k, (getList s2 k).Perm (getList s k) := by
  have hvalid : ¬(l = 0 ∨ s.max < l) := by omega
  have hne : (getList s (allocClass l)).isEmpty = false := by
    simp [List.isEmpty_eq_false, h3]
  have halloc := gnix_buddy_alloc_direct s l hvalid hne
  have hlenI : allocClass l < s.lists.length := lists_length_pos_of_getList_ne s _ h3
  -- the state right after the alloc
  have hS1len : (setBit (setList s (allocClass l)
      (if allocClass l % 2 = 1 then (getList s (allocClass l)).dropLast
       else (getList s (allocClass l)).drop 1))
      (bIdx s (allocTarget s (allocClass l)) (gnixBlockSize l MIN_BLOCK_SIZE))).len = s.len := rfl
  have hfvalid : ¬(l = 0 ∨
      (setBit (setList s (allocClass l)
        (if allocClass l % 2 = 1 then (getList s (allocClass l)).dropLast
         else (getList s (allocClass l)).drop 1))
        (bIdx s (allocTarget s (allocClass l)) (gnixBlockSize l MIN_BLOCK_SIZE))).max < l ∨
      (setBit (setList s (allocClass l)
        (if allocClass l % 2 = 1 then (getList s (allocClass l)).dropLast
         else (getList s (allocClass l)).drop 1))
        (bIdx s (allocTarget s (allocClass l)) (gnixBlockSize l MIN_BLOCK_SIZE))).len ≤
        allocTarget s (allocClass l)) := by
    have hm : (setBit (setList s (allocClass l)
        (if allocClass l % 2 = 1 then (getList s (allocClass l)).dropLast
         else (getList s (allocClass l)).drop 1))
        (bIdx s (allocTarget s (allocClass l)) (gnixBlockSize l MIN_BLOCK_SIZE))).max = s.max := rfl
    rw [hm, hS1len]
    omega
  have hbm : (clearBit (setBit (setList s (allocClass l)
      (if allocClass l % 2 = 1 then (getList s (allocClass l)).dropLast
       else (getList s (allocClass l)).drop 1))
      (bIdx s (allocTarget s (allocClass l)) (gnixBlockSize l MIN_BLOCK_SIZE)))
      (bIdx (setBit (setList s (allocClass l)
        (if allocClass l % 2 = 1 then (getList s (allocClass l)).dropLast
         else (getList s (allocClass l)).drop 1))
        (bIdx s (allocTarget s (allocClass l)) (gnixBlockSize l MIN_BLOCK_SIZE)))
        (allocTarget s (allocClass l)) (gnixBlockSize l MIN_BLOCK_SIZE))).bitmap = s.bitmap := by
    show (insert (bIdx s (allocTarget s (allocClass l)) (gnixBlockSize l MIN_BLOCK_SIZE))
      s.bitmap).erase (bIdx s (allocTarget s (allocClass l)) (gnixBlockSize l MIN_BLOCK_SIZE)) =
      s.bitmap
    exact Finset.erase_insert h5
  have h6' : ¬(gnixBlockSize l MIN_BLOCK_SIZE <
      (setBit (setList s (allocClass l)
        (if allocClass l % 2 = 1 then (getList s (allocClass l)).dropLast
         else (getList s (allocClass l)).drop 1))
        (bIdx s (allocTarget s (allocClass l)) (gnixBlockSize l MIN_BLOCK_SIZE))).max ∧
      bIdx (setBit (setList s (allocClass l)
        (if allocClass l % 2 = 1 then (getList s (allocClass l)).dropLast
         else (getList s (allocClass l)).drop 1))
        (bIdx s (allocTarget s (allocClass l)) (gnixBlockSize l MIN_BLOCK_SIZE)))
        (gnixBuddy (allocTarget s (allocClass l)) (gnixBlockSize l MIN_BLOCK_SIZE))
        (gnixBlockSize l MIN_BLOCK_SIZE) ∉
      (clearBit (setBit (setList s (allocClass l)
        (if allocClass l % 2 = 1 then (getList s (allocClass l)).dropLast
         else (getList s (allocClass l)).drop 1))
        (bIdx s (allocTarget s (allocClass l)) (gnixBlockSize l MIN_BLOCK_SIZE)))
        (bIdx (setBit (setList s (allocClass l)
          (if allocClass l % 2 = 1 then (getList s (allocClass l)).dropLast
           else (getList s (allocClass l)).drop 1))
          (bIdx s (allocTarget s (allocClass l)) (gnixBlockSize l MIN_BLOCK_SIZE)))
          (allocTarget s (allocClass l)) (gnixBlockSize l MIN_BLOCK_SIZE))).bitmap) := by
    rw [hbm]
    rcases h6 with h6 | h6
    · intro hc
      have hm : (setBit (setList s (allocClass l)
          (if allocClass l % 2 = 1 then (getList s (allocClass l)).dropLast
           else (getList s (allocClass l)).drop 1))
          (bIdx s (allocTarget s (allocClass l)) (gnixBlockSize l MIN_BLOCK_SIZE))).max =
          s.max := rfl
      rw [hm] at hc
      omega
    · intro hc
      exact hc.2 h6
  have hfree := gnix_buddy_free_nocoalesce
    (setBit (setList s (allocClass l)
      (if allocClass l % 2 = 1 then (getList s (allocClass l)).dropLast
       else (getList s (allocClass l)).drop 1))
      (bIdx s (allocTarget s (allocClass l)) (gnixBlockSize l MIN_BLOCK_SIZE)))
    (allocTarget s (allocClass l)) l hfvalid h6'
  have hround : allocFreeRound s l = some (setList (clearBit (setBit (setList s (allocClass l)
      (if allocClass l % 2 = 1 then (getList s (allocClass l)).dropLast
       else (getList s (allocClass l)).drop 1))
      (bIdx s (allocTarget s (allocClass l)) (gnixBlockSize l MIN_BLOCK_SIZE)))
      (bIdx (setBit (setList s (allocClass l)
        (if allocClass l % 2 = 1 then (getList s (allocClass l)).dropLast
         else (getList s (allocClass l)).drop 1))
        (bIdx s (allocTarget s (allocClass l)) (gnixBlockSize l MIN_BLOCK_SIZE)))
        (allocTarget s (allocClass l)) (gnixBlockSize l MIN_BLOCK_SIZE)))
      (gnixListIndex (gnixBlockSize l MIN_BLOCK_SIZE) MIN_BLOCK_SIZE)
      (getList (clearBit (setBit (setList s (allocClass l)
        (if allocClass l % 2 = 1 then (getList s (allocClass l)).dropLast
         else (getList s (allocClass l)).drop 1))
        (bIdx s (allocTarget s (allocClass l)) (gnixBlockSize l MIN_BLOCK_SIZE)))
        (bIdx (setBit (setList s (allocClass l)
          (if allocClass l % 2 = 1 then (getList s (allocClass l)).dropLast
           else (getList s (allocClass l)).drop 1))
          (bIdx s (allocTarget s (allocClass l)) (gnixBlockSize l MIN_BLOCK_SIZE)))
          (allocTarget s (allocClass l)) (gnixBlockSize l MIN_BLOCK_SIZE)))
        (gnixListIndex (gnixBlockSize l MIN_BLOCK_SIZE) MIN_BLOCK_SIZE) ++
        [allocTarget s (allocClass l)])) := by
    simp only [allocFreeRound, halloc, hfree]
  refine ⟨by rw [hround]; rfl, ?_⟩
  intro s2 hs2
  rw [hround] at hs2
  have hs2' := Option.some.inj hs2
  subst hs2'
  refine ⟨hbm, rfl, rfl, ?_⟩
  intro k
  have hCBlists : (clearBit (setBit (setList s (allocClass l)
      (if allocClass l % 2 = 1 then (getList s (allocClass l)).dropLast
       else (getList s (allocClass l)).drop 1))
      (bIdx s (allocTarget s (allocClass l)) (gnixBlockSize l MIN_BLOCK_SIZE)))
      (bIdx (setBit (setList s (allocClass l)
        (if allocClass l % 2 = 1 then (getList s (allocClass l)).dropLast
         else (getList s (allocClass l)).drop 1))
        (bIdx s (allocTarget s (allocClass l)) (gnixBlockSize l MIN_BLOCK_SIZE)))
        (allocTarget s (allocClass l)) (gnixBlockSize l MIN_BLOCK_SIZE))).lists =
      s.lists.set (allocClass l)
        (if allocClass l % 2 = 1 then (getList s (allocClass l)).dropLast
         else (getList s (allocClass l)).drop 1) := rfl
  by_cases hk : k = gnixListIndex (gnixBlockSize l MIN_BLOCK_SIZE) MIN_BLOCK_SIZE
  · subst hk
    have hik : gnixListIndex (gnixBlockSize l MIN_BLOCK_SIZE) MIN_BLOCK_SIZE = allocClass l := rfl
    have hcb : getList (clearBit (setBit (setList s (allocClass l)
        (if allocClass l % 2 = 1 then (getList s (allocClass l)).dropLast
         else (getList s (allocClass l)).drop 1))
        (bIdx s (allocTarget s (allocClass l)) (gnixBlockSize l MIN_BLOCK_SIZE)))
        (bIdx (setBit (setList s (allocClass l)
          (if allocClass l % 2 = 1 then (getList s (allocClass l)).dropLast
           else (getList s (allocClass l)).drop 1))
          (bIdx s (allocTarget s (allocClass l)) (gnixBlockSize l MIN_BLOCK_SIZE)))
          (allocTarget s (allocClass l)) (gnixBlockSize l MIN_BLOCK_SIZE)))
        (gnixListIndex (gnixBlockSize l MIN_BLOCK_SIZE) MIN_BLOCK_SIZE) =
        (if allocClass l % 2 = 1 then (getList s (allocClass l)).dropLast
         else (getList s (allocClass l)).drop 1) :=
      getList_setList_eq s (allocClass l) _ hlenI
    have hgetfin : getList (setList (clearBit (setBit (setList s (allocClass l)
        (if allocClass l % 2 = 1 then (getList s (allocClass l)).dropLast
         else (getList s (allocClass l)).drop 1))
        (bIdx s (allocTarget s (allocClass l)) (gnixBlockSize l MIN_BLOCK_SIZE)))
        (bIdx (setBit (setList s (allocClass l)
          (if allocClass l % 2 = 1 then (getList s (allocClass l)).dropLast
           else (getList s (allocClass l)).drop 1))
          (bIdx s (allocTarget s (allocClass l)) (gnixBlockSize l MIN_BLOCK_SIZE)))
          (allocTarget s (allocClass l)) (gnixBlockSize l MIN_BLOCK_SIZE)))
        (gnixListIndex (gnixBlockSize l MIN_BLOCK_SIZE) MIN_BLOCK_SIZE)
        (getList (clearBit (setBit (setList s (allocClass l)
          (if allocClass l % 2 = 1 then (getList s (allocClass l)).dropLast
           else (getList s (allocClass l)).drop 1))
          (bIdx s (allocTarget s (allocClass l)) (gnixBlockSize l MIN_BLOCK_SIZE)))
          (bIdx (setBit (setList s (allocClass l)
            (if allocClass l % 2 = 1 then (getList s (allocClass l)).dropLast
             else (getList s (allocClass l)).drop 1))
            (bIdx s (allocTarget s (allocClass l)) (gnixBlockSize l MIN_BLOCK_SIZE)))
            (allocTarget s (allocClass l)) (gnixBlockSize l MIN_BLOCK_SIZE)))
          (gnixListIndex (gnixBlockSize l MIN_BLOCK_SIZE) MIN_BLOCK_SIZE) ++
          [allocTarget s (allocClass l)]))
        (gnixListIndex (gnixBlockSize l MIN_BLOCK_SIZE) MIN_BLOCK_SIZE) =
        (if allocClass l % 2 = 1 then (getList s (allocClass l)).dropLast
         else (getList s (allocClass l)).drop 1) ++ [allocTarget s (allocClass l)] := by
      rw [getList_setList_eq, hcb]
      show gnixListIndex (gnixBlockSize l MIN_BLOCK_SIZE) MIN_BLOCK_SIZE <
        (s.lists.set (allocClass l)
          (if allocClass l % 2 = 1 then (getList s (allocClass l)).dropLast
           else (getList s (allocClass l)).drop 1)).length
      rw [List.length_set]
      exact hlenI
    rw [hgetfin]
    rw [show gnixListIndex (gnixBlockSize l MIN_BLOCK_SIZE) MIN_BLOCK_SIZE = allocClass l
      from rfl]
    by_cases hp : allocClass l % 2 = 1
    · rw [if_pos hp]
      unfold allocTarget
      rw [if_pos hp]
      rw [dropLast_append_getLastD _ h3]
    · rw [if_neg hp]
      unfold allocTarget
      rw [if_neg hp]
      rcases hcase : getList s (allocClass l) with _ | ⟨x, t⟩
      · exact absurd hcase h3
      · simp [hcase]
  · have hone : getList (setList s (allocClass l)
        (if allocClass l % 2 = 1 then (getList s (allocClass l)).dropLast
         else (getList s (allocClass l)).drop 1)) k = getList s k :=
      getList_setList_ne s _ k _ hk
    have hfin : getList (setList (clearBit (setBit (setList s (allocClass l)
        (if allocClass l % 2 = 1 then (getList s (allocClass l)).dropLast
         else (getList s (allocClass l)).drop 1))
        (bIdx s (allocTarget s (allocClass l)) (gnixBlockSize l MIN_BLOCK_SIZE)))
        (bIdx (setBit (setList s (allocClass l)
          (if allocClass l % 2 = 1 then (getList s (allocClass l)).dropLast
           else (getList s (allocClass l)).drop 1))
          (bIdx s (allocTarget s (allocClass l)) (gnixBlockSize l MIN_BLOCK_SIZE)))
          (allocTarget s (allocClass l)) (gnixBlockSize l MIN_BLOCK_SIZE)))
        (gnixListIndex (gnixBlockSize l MIN_BLOCK_SIZE) MIN_BLOCK_SIZE)
        (getList (clearBit (setBit (setList s (allocClass l)
          (if allocClass l % 2 = 1 then (getList s (allocClass l)).dropLast
           else (getList s (allocClass l)).drop 1))
          (bIdx s (allocTarget s (allocClass l)) (gnixBlockSize l MIN_BLOCK_SIZE)))
          (bIdx (setBit (setList s (allocClass l)
            (if allocClass l % 2 = 1 then (getList s (allocClass l)).dropLast
             else (getList s (allocClass l)).drop 1))
            (bIdx s (allocTarget s (allocClass l)) (gnixBlockSize l MIN_BLOCK_SIZE)))
            (allocTarget s (allocClass l)) (gnixBlockSize l MIN_BLOCK_SIZE)))
          (gnixListIndex (gnixBlockSize l MIN_BLOCK_SIZE) MIN_BLOCK_SIZE) ++
          [allocTarget s (allocClass l)])) k = getList s k := by
      rw [getList_setList_ne _ _ _ _ hk]
      exact hone
    rw [hfin]

theorem claim_C5_witness :
    allocFreeRound ⟨64, 64, [[16], [32], []], {0, 5, 6}⟩ 16 =
      some ⟨64, 64, [[16], [32], []], {0, 5, 6}⟩ ∧
    (allocFreeRound ⟨64, 64, [[16], [32], []], {0, 5, 6}⟩ 16).isSome = true := by
  have h := claim_C5 ⟨64, 64, [[16], [32], []], {0, 5, 6}⟩ 16 (by decide) (by decide)
    (by decide) (by decide) (by decide) (by decide)
  exact ⟨by decide, h.1⟩
